import Mathlib

set_option maxRecDepth 16384

/-!
Verification of the form-field classification, extraction and learning core
of the CV auto-fill backend (`app/services/form_detector.py`,
`app/services/learning_service.py`, `app/services/config_service.py`).

The Python code is shallowly embedded: strings are Lean `String`s handled
through their character lists, Python floats are modelled as exact rationals
(all constants of the program are decimal literals), nested JSON-like records
are an inductive `PyVal`, and Python exceptions are an explicit `Except`
error channel.  The regular-expression patterns of the classifier are
embedded through a small backtracking matcher `Rx`/`rxRun` whose list-of-results
semantics mirrors Python `re`'s leftmost, first-alternative, greedy search.
-/

/-! ## String helpers (Python `str.lower`, `str.strip`, `str.split`, `in`) -/

/-- Python `str.lower()` on a character list (ASCII case folding). -/
def strLower (l : List Char) : List Char := l.map Char.toLower

/-- Python `str.lower()` on a `String`. -/
def strLowerS (s : String) : String := String.mk (strLower s.data)

/-- Python's whitespace set for `str.strip()` (ASCII). -/
def isPyWs (c : Char) : Bool :=
  c = ' ' || c = '\t' || c = '\n' || c = '\r' || c = '\x0b' || c = '\x0c'

/-- Python `str.strip()` on a character list: drop whitespace at both ends. -/
def pyStrip (l : List Char) : List Char :=
  ((l.dropWhile isPyWs).reverse.dropWhile isPyWs).reverse

/-- Python `str.strip()` on a `String`. -/
def pyStripS (s : String) : String := String.mk (pyStrip s.data)

/-- Helper for `splitWs`: `acc` is the current word, reversed. -/
def splitWsAux : List Char → List Char → List String
  | acc, [] => if acc = [] then [] else [String.mk acc.reverse]
  | acc, c :: rest =>
    if isPyWs c then
      if acc = [] then splitWsAux [] rest
      else String.mk acc.reverse :: splitWsAux [] rest
    else splitWsAux (c :: acc) rest

/-- Python `str.split()` (no argument): split on whitespace runs, no empties. -/
def splitWs (l : List Char) : List String := splitWsAux [] l

/-- Python `str.split()` on a `String`. -/
def splitWsS (s : String) : List String := splitWs s.data

/-- String concatenation through the character lists (kernel-reducible). -/
def strCat (a b : String) : String := String.mk (a.data ++ b.data)

/-- Python `sep.join(xs)` for a list of strings. -/
def joinWith (sep : String) : List String → String
  | [] => ""
  | [x] => x
  | x :: y :: rest => strCat x (strCat sep (joinWith sep (y :: rest)))

/-- Python `' '.join(filter(None, xs))`: join the non-empty strings with spaces. -/
def joinNonEmpty (xs : List String) : String :=
  joinWith " " (xs.filter (fun s => s ≠ ""))

/-- Does `pat` occur at the head of `l` (exact characters)? -/
def isPrefixList : List Char → List Char → Bool
  | [], _ => true
  | _ :: _, [] => false
  | p :: ps, c :: cs => p = c && isPrefixList ps cs

/-- Python `needle in hay` substring containment on character lists. -/
def containsSub (hay needle : List Char) : Bool :=
  match hay with
  | [] => isPrefixList needle []
  | _ :: rest => isPrefixList needle hay || containsSub rest needle

/-- Python `needle in hay` on `String`s. -/
def containsSubS (hay needle : String) : Bool := containsSub hay.data needle.data

/-! ## A small regular-expression engine

Only the constructs used by `FormDetector._initialize_patterns` are needed:
case-insensitive literals, `.`, `X?`, alternation, `^`, `$`, `.*`,
negative lookahead `(?!...)` and the word boundary `\b` (used by the
derived pattern `\b<match>\b` in `_calculate_pattern_confidence`).
-/

/-- Abstract syntax of the regular expressions used by the classifier. -/
inductive Rx where
  | eps : Rx
  | chr (c : Char) : Rx
  | anyc : Rx
  | seq (a b : Rx) : Rx
  | alt (a b : Rx) : Rx
  | opt (a : Rx) : Rx
  | dotstar : Rx
  | bol : Rx
  | eol : Rx
  | nlook (a : Rx) : Rx
  | wb : Rx
deriving DecidableEq

/-- Word character for `\b` (Python `\w`, ASCII fragment). -/
def isWordChar (c : Char) : Bool := c.isAlphanum || c = '_'

/-- Remainders reachable by `.*` (greedy: longest consumption first; `.`
does not match a newline). -/
def dotstarRems : List Char → List (List Char)
  | [] => [[]]
  | c :: rest =>
    if c = '\n' then [c :: rest]
    else dotstarRems rest ++ [c :: rest]

/-- Is there a word boundary at the current position?  `full` is the whole
subject, `s` the remaining suffix (so the position is `full.length - s.length`). -/
def atWordBoundary (full s : List Char) : Bool :=
  let pos := full.length - s.length
  let prevWord := if pos = 0 then false else isWordChar (full.getD (pos - 1) ' ')
  let nextWord := match s with | [] => false | c :: _ => isWordChar c
  prevWord != nextWord

/-- Backtracking matcher: all remainder suffixes after matching `r` at the
current position, in Python `re`'s preference order (first alternative first,
greedy quantifiers longest first).  `full` is the whole subject string. -/
def rxRun (r : Rx) (full : List Char) (s : List Char) : List (List Char) :=
  match r with
  | .eps => [s]
  | .chr c =>
    match s with
    | [] => []
    | x :: rest => if x.toLower = c.toLower then [rest] else []
  | .anyc =>
    match s with
    | [] => []
    | x :: rest => if x = '\n' then [] else [rest]
  | .seq a b => (rxRun a full s).flatMap (fun s1 => rxRun b full s1)
  | .alt a b => rxRun a full s ++ rxRun b full s
  | .opt a => rxRun a full s ++ [s]
  | .dotstar => dotstarRems s
  | .bol => if s.length = full.length then [s] else []
  | .eol => if s = [] ∨ s = ['\n'] then [s] else []
  | .nlook a => if (rxRun a full s).isEmpty then [s] else []
  | .wb => if atWordBoundary full s then [s] else []

/-- `re.search` position loop: try each start position left to right; at the
first position where the pattern matches, return the suffix at that position
together with the remainder after the (first) match. -/
def rsearchFrom (r : Rx) (full : List Char) : List Char → Option (List Char × List Char)
  | [] =>
    match rxRun r full [] with
    | rem :: _ => some ([], rem)
    | [] => none
  | c :: rest =>
    match rxRun r full (c :: rest) with
    | rem :: _ => some (c :: rest, rem)
    | [] => rsearchFrom r full rest

/-- Python `pattern.search(text)`, returning `match.group(0)` when a match
exists. -/
def rsearch (r : Rx) (text : String) : Option String :=
  match rsearchFrom r text.data text.data with
  | some (s, rem) => some (String.mk (s.take (s.length - rem.length)))
  | none => none

/-- Literal regex for a string (each character matched case-insensitively);
this is `re.compile(re.escape(m), re.I)`. -/
def litRx (m : List Char) : Rx :=
  m.foldr (fun c r => .seq (.chr c) r) .eps

/-- The derived pattern `r'\b' + re.escape(m) + r'\b'` of
`_calculate_pattern_confidence`. -/
def boundedLitRx (m : String) : Rx :=
  .seq .wb (.seq (litRx m.data) .wb)

/-- Convenience: right-nested alternation `a|b|c|...` (left alternative
preferred, as in Python). -/
def altN : List Rx → Rx
  | [] => .eps
  | [r] => r
  | r :: rest => .alt r (altN rest)

/-- Convenience: concatenation of a list of regexes. -/
def seqN : List Rx → Rx
  | [] => .eps
  | [r] => r
  | r :: rest => .seq r (seqN rest)

/-! ## Python values and the value extractor (`FormDetector._extract_cv_value`)

`PyVal` models the nested record structures the extractor walks: JSON-style
mappings with string keys, lists, strings, integers and `None`.  Python
exceptions raised while walking are an explicit error channel: the source
catches `KeyError`, `IndexError` and `TypeError` only, so `AttributeError`
(raised when `.get` is called on a non-mapping) escapes `_extract_cv_value`.
-/

/-- Nested record values: mappings (string keys), lists, strings, integers
and `None`. -/
inductive PyVal where
  | pnone : PyVal
  | str (s : String) : PyVal
  | int (n : Int) : PyVal
  | list (xs : List PyVal) : PyVal
  | dict (kvs : List (String × PyVal)) : PyVal

/-- The Python exceptions relevant to `_extract_cv_value`. -/
inductive PyErr where
  | keyError : PyErr
  | indexError : PyErr
  | typeError : PyErr
  | attributeError : PyErr
deriving DecidableEq

instance {ε α : Type} [DecidableEq ε] [DecidableEq α] : DecidableEq (Except ε α) := fun x y =>
  match x, y with
  | .ok a, .ok b => decidable_of_iff (a = b) (by simp)
  | .error a, .error b => decidable_of_iff (a = b) (by simp)
  | .ok _, .error _ => isFalse (by simp)
  | .error _, .ok _ => isFalse (by simp)

/-- Python truthiness of a `PyVal`. -/
def pyTruthy : PyVal → Bool
  | .pnone => false
  | .str s => s != ""
  | .int n => n != 0
  | .list xs => !xs.isEmpty
  | .dict kvs => !kvs.isEmpty

/-- Truthiness of an `Optional[str]` (`None` and `''` are falsy). -/
def pyTruthyOptStr : Option String → Bool
  | none => false
  | some s => s ≠ ""

/-- `dict.get(k)` (first binding wins, as in a Python dict there is at most
one binding per key): `None` when the key is missing. -/
def dictGet (kvs : List (String × PyVal)) (k : String) : PyVal :=
  match kvs.find? (fun kv => kv.1 = k) with
  | some kv => kv.2
  | none => .pnone

/-- `dict.get(k, d)` with an explicit default. -/
def dictGetD (kvs : List (String × PyVal)) (k : String) (d : PyVal) : PyVal :=
  match kvs.find? (fun kv => kv.1 = k) with
  | some kv => kv.2
  | none => d

mutual
/-- Python `repr(v)` (strings are quoted; quote escaping is not modelled —
no claim depends on the rendering of exotic strings). -/
def pyRepr : PyVal → String
  | .pnone => "None"
  | .str s => strCat "'" (strCat s "'")
  | .int n => toString n
  | .list xs => strCat "[" (strCat (joinWith ", " (pyReprList xs)) "]")
  | .dict kvs => strCat "\x7b" (strCat (joinWith ", " (pyReprDict kvs)) "\x7d")

/-- `repr` of each element of a list. -/
def pyReprList : List PyVal → List String
  | [] => []
  | v :: vs => pyRepr v :: pyReprList vs

/-- `repr(k): repr(v)` of each binding of a dict. -/
def pyReprDict : List (String × PyVal) → List String
  | [] => []
  | kv :: kvs => strCat (strCat "'" (strCat kv.1 "'")) (strCat ": " (pyRepr kv.2)) :: pyReprDict kvs
end

/-- Python `str(v)` (for lists and dicts, `str` coincides with `repr`). -/
def pyStr : PyVal → String
  | .str s => s
  | v => pyRepr v

/-- Python `str.isdigit()` on a path segment (ASCII digits; true only for a
non-empty all-digit string). -/
def isDigitStr (s : String) : Bool :=
  s.data ≠ [] && s.data.all Char.isDigit

/-- Numeric value of an all-digit segment (`int(part)`). -/
def digitsToNat (s : String) : Nat :=
  s.data.foldl (fun n c => n * 10 + (c.toNat - '0'.toNat)) 0

/-- Python `v is None`. -/
def isPNone : PyVal → Bool
  | .pnone => true
  | _ => false

/-- One step of the path walk: `current_data[int(part)]` for all-digit
segments, `current_data.get(part)` otherwise, raising the exception the
corresponding Python operation raises. -/
def extractStep (cur : PyVal) (part : String) : Except PyErr PyVal :=
  if isDigitStr part then
    match cur with
    | .list xs =>
      match xs.get? (digitsToNat part) with
      | some v => .ok v
      | none => .error .indexError
    | .str s =>
      match s.data.get? (digitsToNat part) with
      | some c => .ok (.str (String.mk [c]))
      | none => .error .indexError
    | .dict _ => .error .keyError
    | _ => .error .typeError
  else
    match cur with
    | .dict kvs => .ok (dictGet kvs part)
    | _ => .error .attributeError

/-- The walk over the path parts; mirrors the loop of `_extract_cv_value`
(`return None` as soon as a step yields `None`). -/
def walkPath (cur : PyVal) : List String → Except PyErr (Option PyVal)
  | [] => .ok (some cur)
  | p :: rest =>
    match extractStep cur p with
    | .error e => .error e
    | .ok v => if isPNone v then .ok none else walkPath v rest

/-- State machine for `re.sub(r'\[(\d+)\]', r'.\1', path)`: `pending = some ds`
means a `[` followed by the digits `ds` has been read but not yet closed. -/
def bracketSubAux : Option (List Char) → List Char → List Char
  | none, [] => []
  | none, c :: rest =>
    if c = '[' then bracketSubAux (some []) rest
    else c :: bracketSubAux none rest
  | some ds, [] => '[' :: ds
  | some ds, c :: rest =>
    if c.isDigit then bracketSubAux (some (ds ++ [c])) rest
    else if c = ']' ∧ ds ≠ [] then '.' :: ds ++ bracketSubAux none rest
    else '[' :: ds ++
      (if c = '[' then bracketSubAux (some []) rest else c :: bracketSubAux none rest)

/-- `re.sub(r'\[(\d+)\]', r'.\1', path)`, applied only when `'[' in path`
(as in the source). -/
def normalizePath (l : List Char) : List Char :=
  if '[' ∈ l then bracketSubAux none l else l

/-- `path.split('.')` (Python string split: `''` gives `['']`, adjacent dots
give empty segments). -/
def splitDots : List Char → List (List Char)
  | [] => [[]]
  | c :: rest =>
    match splitDots rest with
    | [] => [[c]]
    | s :: ss => if c = '.' then [] :: s :: ss else (c :: s) :: ss

/-! ### Transforms (`_join_skills`, `_format_experience`, `_format_education`,
`_apply_transform`) -/

/-- Python `', '.join(v)`: joins an iterable of strings; raises `TypeError`
(modelled as `Except Unit`) when an element is not a string.  A string
iterates over its characters, a dict over its keys. -/
def pyJoinStrs (sep : String) (v : PyVal) : Except Unit String :=
  match v with
  | .str s => .ok (joinWith sep (s.data.map (fun c => String.mk [c])))
  | .list xs =>
    if xs.all (fun x => match x with | .str _ => true | _ => false) then
      .ok (joinWith sep (xs.map (fun x => match x with | .str s => s | _ => "")))
    else .error ()
  | .dict kvs => .ok (joinWith sep (kvs.map Prod.fst))
  | _ => .error ()

/-- The category loop of `_join_skills`: for each dict category with a truthy
`items` value, `', '.join(items)`. -/
def joinSkillsCats : List PyVal → Except Unit (List String)
  | [] => .ok []
  | cat :: rest =>
    match cat with
    | .dict kvs =>
      let items := dictGetD kvs "items" (.list [])
      if pyTruthy items then
        match pyJoinStrs ", " items with
        | .ok s => (joinSkillsCats rest).map (fun l => s :: l)
        | .error e => .error e
      else joinSkillsCats rest
    | _ => joinSkillsCats rest

/-- `FormDetector._join_skills` (the `Except` channel carries a `TypeError`
raised by `', '.join` on non-string items; `_apply_transform` catches it). -/
def joinSkills (data : PyVal) : Except Unit String :=
  match data with
  | .list cats => (joinSkillsCats cats).map (fun l => joinWith ", " l)
  | _ => .ok ""

/-- `FormDetector._format_experience`: `f"{job_title} at {company}"`. -/
def formatExperience (data : PyVal) : String :=
  match data with
  | .dict kvs =>
    strCat (pyStr (dictGetD kvs "job_title" (.str "")))
      (strCat " at " (pyStr (dictGetD kvs "company" (.str ""))))
  | _ => ""

/-- `FormDetector._format_education`: `f"{degree} - {institution}"`. -/
def formatEducation (data : PyVal) : String :=
  match data with
  | .dict kvs =>
    strCat (pyStr (dictGetD kvs "degree" (.str "")))
      (strCat " - " (pyStr (dictGetD kvs "institution" (.str ""))))
  | _ => ""

/-- `FormDetector._apply_transform`: look the transform up in the registry,
swallow any exception it raises (degrade to `''`); an unregistered name
falls back to `str(data) if data else ''`. -/
def applyTransform (data : PyVal) (transformName : String) (_fullCvData : PyVal) : String :=
  match transformName with
  | "join_skills" =>
    match joinSkills data with
    | .ok s => s
    | .error _ => ""
  | "format_experience" => formatExperience data
  | "format_education" => formatEducation data
  | _ => if pyTruthy data then pyStr data else ""

/-- Is the value a `list` or `dict` (`isinstance(current_data, (list, dict))`)? -/
def isComposite : PyVal → Bool
  | .list _ => true
  | .dict _ => true
  | _ => false

/-- `FormDetector._extract_cv_value`.  The `try` block catches `KeyError`,
`IndexError` and `TypeError` (returning `None`); an `AttributeError` raised
by `.get` on a non-mapping is *not* caught and escapes as `.error`. -/
def extractCvValue (cvData : PyVal) (cvPath : String) (transformFunction : Option String) :
    Except PyErr (Option String) :=
  let inner : Except PyErr (Option String) :=
    let pathParts := (splitDots (normalizePath cvPath.data)).map String.mk
    match walkPath cvData pathParts with
    | .error e => .error e
    | .ok none => .ok none
    | .ok (some current) =>
      if pyTruthyOptStr transformFunction ∧ isComposite current then
        .ok (some (applyTransform current (transformFunction.getD "") cvData))
      else .ok (if pyTruthy current then some (pyStr current) else none)
  match inner with
  | .error .attributeError => .error .attributeError
  | .error _ => .ok none
  | .ok v => .ok v


/-! ## The form detector (`FormDetector`)

Field descriptors are string-valued attribute dictionaries; the classifier
combines a field's textual attributes and scores them against the pattern
families of `_initialize_patterns` (translated below rule by rule).
Confidences are Python float literals, modelled as exact rationals.
-/

/-- A form-field attribute dictionary (string-valued). -/
abbrev FieldAttrs := List (String × String)

/-- `d.get(k, default)` on an attribute dictionary. -/
def aget (fd : FieldAttrs) (k d : String) : String :=
  match fd.find? (fun kv => kv.1 = k) with
  | some kv => kv.2
  | none => d

/-- The dataclass `FormField`. -/
structure FormField where
  name : String
  fieldType : String
  classification : Option String
  confidence : ℚ
  attributes : FieldAttrs

/-- The dataclass `FormMapping`. -/
structure FormMapping where
  fieldName : String
  cvPath : String
  transformFunction : Option String
  confidence : ℚ
deriving DecidableEq

/-- `FormField(name=field.get('name',''), field_type=field.get('type','text'),
classification=None, confidence=0.0, attributes=field)` as built by
`classify_fields`. -/
def mkFormField (fd : FieldAttrs) : FormField :=
  ⟨aget fd "name" "", aget fd "type" "text", none, 0, fd⟩

/-- The pattern families of `_initialize_patterns`, in declaration order;
each regex is translated construct by construct (all are compiled with
`re.I`, which the engine's `chr` already folds in). -/
def classificationPatterns : List (String × List Rx) := [
  ("personal_info.full_name", [
    altN [seqN [litRx "ful".data, .opt (.chr 'l'), .anyc, litRx "name".data],
          seqN [litRx "name".data, .nlook (.seq .dotstar (litRx "email".data)),
                .nlook (.seq .dotstar (litRx "user".data))]],
    seqN [.bol, litRx "name".data, .eol],
    seqN [litRx "applicant".data, .opt .anyc, litRx "name".data]]),
  ("personal_info.first_name", [
    altN [seqN [litRx "first".data, .opt .anyc, litRx "name".data], litRx "fname".data,
          seqN [litRx "given".data, .opt .anyc, litRx "name".data]],
    seqN [.bol, litRx "firstname".data, .eol]]),
  ("personal_info.last_name", [
    altN [seqN [litRx "last".data, .opt .anyc, litRx "name".data], litRx "lname".data,
          litRx "surname".data, seqN [litRx "family".data, .opt .anyc, litRx "name".data]],
    seqN [.bol, litRx "lastname".data, .eol]]),
  ("personal_info.email", [
    altN [litRx "email".data, seqN [.chr 'e', .opt .anyc, litRx "mail".data]],
    seqN [.bol, litRx "email".data, .eol]]),
  ("personal_info.phone", [
    altN [litRx "phone".data, litRx "cel".data, litRx "tel".data, litRx "mobile".data,
          litRx "cell".data, litRx "contact".data],
    seqN [litRx "phone".data, .opt .anyc, litRx "number".data]]),
  ("personal_info.address", [
    altN [litRx "address".data, seqN [litRx "addr".data, .nlook (litRx "ess".data)]],
    altN [litRx "street".data, litRx "location".data]]),
  ("personal_info.country", [
    altN [litRx "country".data, litRx "nation".data],
    seqN [.bol, litRx "country".data, .eol]]),
  ("experience[0].company", [
    seqN [litRx "current".data, .opt .anyc, litRx "company".data],
    altN [litRx "company".data, litRx "organization".data, litRx "employer".data,
          litRx "workplace".data]]),
  ("experience[0].job_title", [
    altN [litRx "position".data, litRx "title".data,
          seqN [litRx "job".data, .opt .anyc, litRx "title".data], litRx "role".data,
          seqN [litRx "current".data, .opt .anyc, litRx "role".data]],
    seqN [.bol, litRx "title".data, .eol]]),
  ("education[0].institution", [
    altN [litRx "school".data, litRx "university".data, litRx "college".data,
          litRx "institution".data],
    seqN [litRx "education".data, .dotstar, litRx "institution".data]]),
  ("education[0].degree", [
    seqN [.bol, litRx "degree".data, .eol]]),
  ("skills_text", [
    altN [litRx "skills".data, litRx "skill".data, litRx "competenc".data,
          litRx "abilities".data],
    seqN [litRx "technical".data, .opt .anyc, litRx "skills".data]]),
  ("cover_letter", [
    altN [seqN [litRx "cover".data, .opt .anyc, litRx "letter".data], litRx "motivation".data,
          seqN [litRx "why".data, .dotstar, litRx "interested".data]],
    altN [litRx "message".data, seqN [litRx "additional".data, .dotstar, litRx "info".data]]])]

/-- `_initialize_transforms`, accessed through `dict.get` in `classify_fields`. -/
def commonTransforms (classification : String) : Option String :=
  match classification with
  | "skills_text" => some "join_skills"
  | "experience_summary" => some "format_experience"
  | "education_summary" => some "format_education"
  | _ => none

/-- The combined search text of `_classify_single_field`:
`' '.join(filter(None, [name, id, placeholder, label, className, class]))`. -/
def combinedText (field : FormField) : String :=
  joinNonEmpty [field.name, aget field.attributes "id" "",
    aget field.attributes "placeholder" "", aget field.attributes "label" "",
    aget field.attributes "className" "", aget field.attributes "class" ""]

/-- The escalation ladder of `_calculate_pattern_confidence` for one matching
rule: base 0.8; 1.0 when the match equals the whole stripped text
case-insensitively; 0.9 when `\b<match>\b` also occurs in the text. -/
def escalateConfidence (m text : String) : ℚ :=
  if strLower m.data = strLower (pyStrip text.data) then 1
  else if (rsearch (boundedLitRx m) text).isSome then 0.9
  else 0.8

/-- `FormDetector._calculate_pattern_confidence`. -/
def calculatePatternConfidence (text : String) (patterns : List Rx) : ℚ :=
  if text = "" then 0
  else patterns.foldl (fun maxConfidence p =>
    match rsearch p text with
    | some m => max maxConfidence (escalateConfidence m text)
    | none => maxConfidence) 0

/-- `FormDetector._classify_single_field`: best family by strict
`confidence > best_confidence` over the families in declaration order. -/
def classifySingleField (field : FormField) : Option String × ℚ :=
  let combined := combinedText field
  classificationPatterns.foldl (fun best cp =>
    let confidence := calculatePatternConfidence combined cp.2
    if best.2 < confidence then (some cp.1, confidence) else best) (none, 0)

/-- `FormDetector.classify_fields`: a `FormMapping` for every field whose
classification is truthy with confidence above 0.5. -/
def classifyFields (fieldData : List FieldAttrs) : List FormMapping :=
  fieldData.foldl (fun mappings fd =>
    let fieldObj := mkFormField fd
    let r := classifySingleField fieldObj
    match r.1 with
    | some classification =>
      if classification ≠ "" ∧ 0.5 < r.2 then
        mappings ++ [⟨fieldObj.name, classification, commonTransforms classification, r.2⟩]
      else mappings
    | none => mappings) []

/-- One entry of the report's `mappings` list. -/
structure MappingEntry where
  fieldName : String
  cvPath : String
  value : String
  confidence : ℚ
deriving DecidableEq

/-- One entry of the report's `unmapped_fields` list. -/
structure UnmappedEntry where
  name : String
  ftype : String
  label : String
  placeholder : String
deriving DecidableEq

/-- The result dictionary of `generate_field_mapping`. -/
structure MappingReport where
  mappings : List MappingEntry
  unmappedFields : List UnmappedEntry
  confidenceScores : List (String × ℚ)
deriving DecidableEq

/-- Python dict assignment `d[k] = v` on an insertion-ordered dictionary. -/
def dictInsertQ (d : List (String × ℚ)) (k : String) (v : ℚ) : List (String × ℚ) :=
  match d with
  | [] => [(k, v)]
  | kv :: rest => if kv.1 = k then (k, v) :: rest else kv :: dictInsertQ rest k v

/-- Loop state of the first loop of `generate_field_mapping`. -/
structure GenState where
  mappings : List MappingEntry
  confidenceScores : List (String × ℚ)
  mappedFieldNames : List String

/-- The first loop of `generate_field_mapping`: extract each mapping's value
(the extractor may raise), append an entry when the value is truthy, always
record the confidence and mark the field name as handled. -/
def genLoop (cvData : PyVal) : GenState → List FormMapping → Except PyErr GenState
  | st, [] => .ok st
  | st, m :: rest =>
    match extractCvValue cvData m.cvPath m.transformFunction with
    | .error e => .error e
    | .ok fieldValue =>
      let newMappings :=
        if pyTruthyOptStr fieldValue then
          st.mappings ++ [⟨m.fieldName, m.cvPath, fieldValue.getD "", m.confidence⟩]
        else st.mappings
      genLoop cvData ⟨newMappings, dictInsertQ st.confidenceScores m.fieldName m.confidence,
        st.mappedFieldNames ++ [m.fieldName]⟩ rest

/-- The second loop of `generate_field_mapping`: every input field with a
non-empty name not handled by the first loop becomes an unmapped entry. -/
def unmappedLoop (mappedFieldNames : List String) : List FieldAttrs → List UnmappedEntry
  | [] => []
  | fd :: rest =>
    let fieldName := aget fd "name" ""
    if fieldName ≠ "" ∧ fieldName ∉ mappedFieldNames then
      ⟨fieldName, aget fd "type" "text", aget fd "label" "", aget fd "placeholder" ""⟩ ::
        unmappedLoop mappedFieldNames rest
    else unmappedLoop mappedFieldNames rest

/-- `FormDetector.generate_field_mapping`.  The error channel carries the
`AttributeError` that `_extract_cv_value` lets escape. -/
def generateFieldMapping (cvData : PyVal) (formFields : List FieldAttrs) :
    Except PyErr MappingReport :=
  let mappings := classifyFields formFields
  match genLoop cvData ⟨[], [], []⟩ mappings with
  | .error e => .error e
  | .ok st => .ok ⟨st.mappings, unmappedLoop st.mappedFieldNames formFields, st.confidenceScores⟩

/-! ## A decidable mirror of the confidence computation

The classifier's scores live in the four-point chain `0 < 0.8 < 0.9 < 1.0`.
To let concrete runs be settled by `decide` (rational arithmetic does not
reduce in the kernel), the same folds are mirrored on the index `0..3` of
that chain, and `scoreOf` is proved to commute with everything.
-/

/-- The four confidence levels, by index. -/
def scoreOf : Nat → ℚ
  | 0 => 0
  | 1 => 0.8
  | 2 => 0.9
  | _ + 3 => 1

/-- Mirror of `escalateConfidence` on chain indices. -/
def outcomeOfMatch (m text : String) : Nat :=
  if strLower m.data = strLower (pyStrip text.data) then 3
  else if (rsearch (boundedLitRx m) text).isSome then 2
  else 1

/-- Mirror of `calculatePatternConfidence` on chain indices. -/
def patternOutcome (text : String) (patterns : List Rx) : Nat :=
  if text = "" then 0
  else patterns.foldl (fun mo p =>
    match rsearch p text with
    | some m => max mo (outcomeOfMatch m text)
    | none => mo) 0

/-- Mirror of `classifySingleField` on chain indices. -/
def classifySingleFieldB (field : FormField) : Option String × Nat :=
  let combined := combinedText field
  classificationPatterns.foldl (fun best cp =>
    let o := patternOutcome combined cp.2
    if best.2 < o then (some cp.1, o) else best) (none, 0)

/-- Mirror of `FormMapping` with a chain index in place of the confidence. -/
structure FormMappingB where
  fieldName : String
  cvPath : String
  transformFunction : Option String
  outcome : Nat
deriving DecidableEq

/-- Mirror of `classifyFields`. -/
def classifyFieldsB (fieldData : List FieldAttrs) : List FormMappingB :=
  fieldData.foldl (fun mappings fd =>
    let fieldObj := mkFormField fd
    let r := classifySingleFieldB fieldObj
    match r.1 with
    | some classification =>
      if classification ≠ "" ∧ 1 ≤ r.2 then
        mappings ++ [⟨fieldObj.name, classification, commonTransforms classification, r.2⟩]
      else mappings
    | none => mappings) []

theorem scoreOf_mono : Monotone scoreOf := by
  intro a b hab
  match a, hab with
  | 0, _ =>
    match b with
    | 0 => simp [scoreOf]
    | 1 => norm_num [scoreOf]
    | 2 => norm_num [scoreOf]
    | n + 3 => norm_num [scoreOf]
  | 1, _ =>
    match b, hab with
    | 1, _ => simp [scoreOf]
    | 2, _ => norm_num [scoreOf]
    | n + 3, _ => norm_num [scoreOf]
  | 2, _ =>
    match b, hab with
    | 2, _ => simp [scoreOf]
    | n + 3, _ => norm_num [scoreOf]
  | a + 3, _ =>
    match b, hab with
    | b + 3, _ => simp [scoreOf]

theorem scoreOf_nonneg (a : Nat) : 0 ≤ scoreOf a := by
  match a with
  | 0 => norm_num [scoreOf]
  | 1 => norm_num [scoreOf]
  | 2 => norm_num [scoreOf]
  | _ + 3 => norm_num [scoreOf]

theorem scoreOf_le_one (a : Nat) : scoreOf a ≤ 1 := by
  match a with
  | 0 => norm_num [scoreOf]
  | 1 => norm_num [scoreOf]
  | 2 => norm_num [scoreOf]
  | _ + 3 => norm_num [scoreOf]

theorem scoreOf_lt_iff {a b : Nat} (ha : a ≤ 3) (hb : b ≤ 3) :
    scoreOf a < scoreOf b ↔ a < b := by
  interval_cases a <;> interval_cases b <;> norm_num [scoreOf]

theorem scoreOf_max (a b : Nat) : scoreOf (max a b) = max (scoreOf a) (scoreOf b) :=
  scoreOf_mono.map_max

theorem escalateConfidence_eq (m text : String) :
    escalateConfidence m text = scoreOf (outcomeOfMatch m text) := by
  unfold escalateConfidence outcomeOfMatch
  split_ifs <;> rfl

theorem outcomeOfMatch_le (m text : String) : outcomeOfMatch m text ≤ 3 := by
  unfold outcomeOfMatch
  split_ifs <;> omega

theorem outcomeOfMatch_pos (m text : String) : 1 ≤ outcomeOfMatch m text := by
  unfold outcomeOfMatch
  split_ifs <;> omega

theorem calculatePatternConfidence_eq (text : String) (patterns : List Rx) :
    calculatePatternConfidence text patterns = scoreOf (patternOutcome text patterns) := by
  unfold calculatePatternConfidence patternOutcome
  split_ifs with h
  · rfl
  · suffices hgen : ∀ (l : List Rx) (o : Nat),
        l.foldl (fun maxConfidence p =>
          match rsearch p text with
          | some m => max maxConfidence (escalateConfidence m text)
          | none => maxConfidence) (scoreOf o) =
        scoreOf (l.foldl (fun mo p =>
          match rsearch p text with
          | some m => max mo (outcomeOfMatch m text)
          | none => mo) o) by
      exact hgen patterns 0
    intro l
    induction l with
    | nil => intro o; rfl
    | cons p rest ih =>
      intro o
      simp only [List.foldl_cons]
      cases hr : rsearch p text with
      | none => exact ih o
      | some m =>
        have h1 : max (scoreOf o) (escalateConfidence m text) =
            scoreOf (max o (outcomeOfMatch m text)) := by
          rw [escalateConfidence_eq, scoreOf_max]
        show List.foldl _ (max (scoreOf o) (escalateConfidence m text)) rest =
          scoreOf (List.foldl _ (max o (outcomeOfMatch m text)) rest)
        rw [h1]
        exact ih _

theorem patternOutcome_le (text : String) (patterns : List Rx) :
    patternOutcome text patterns ≤ 3 := by
  unfold patternOutcome
  split_ifs
  · omega
  · suffices hgen : ∀ (l : List Rx) (o : Nat), o ≤ 3 →
        l.foldl (fun mo p =>
          match rsearch p text with
          | some m => max mo (outcomeOfMatch m text)
          | none => mo) o ≤ 3 by
      exact hgen patterns 0 (by omega)
    intro l
    induction l with
    | nil => intro o ho; simpa using ho
    | cons p rest ih =>
      intro o ho
      simp only [List.foldl_cons]
      cases hr : rsearch p text with
      | none => exact ih o ho
      | some m =>
        show List.foldl _ (max o (outcomeOfMatch m text)) rest ≤ 3
        exact ih _ (by have := outcomeOfMatch_le m text; omega)

theorem classifySingleField_eq (field : FormField) :
    classifySingleField field =
      ((classifySingleFieldB field).1, scoreOf (classifySingleFieldB field).2) := by
  unfold classifySingleField classifySingleFieldB
  suffices hgen : ∀ (l : List (String × List Rx)) (p : Option String) (o : Nat), o ≤ 3 →
      l.foldl (fun best cp =>
        let confidence := calculatePatternConfidence (combinedText field) cp.2
        if best.2 < confidence then (some cp.1, confidence) else best) (p, scoreOf o) =
      ((l.foldl (fun best cp =>
        let o := patternOutcome (combinedText field) cp.2
        if best.2 < o then (some cp.1, o) else best) (p, o)).1,
       scoreOf (l.foldl (fun best cp =>
        let o := patternOutcome (combinedText field) cp.2
        if best.2 < o then (some cp.1, o) else best) (p, o)).2) by
    exact hgen classificationPatterns none 0 (by omega)
  intro l
  induction l with
  | nil => intro p o _; rfl
  | cons cp rest ih =>
    intro p o ho
    rw [List.foldl_cons, List.foldl_cons]
    have hstep : (if scoreOf o < calculatePatternConfidence (combinedText field) cp.2
          then (some cp.1, calculatePatternConfidence (combinedText field) cp.2)
          else (p, scoreOf o)) =
        ((if o < patternOutcome (combinedText field) cp.2
          then (some cp.1, patternOutcome (combinedText field) cp.2) else (p, o)).1,
         scoreOf (if o < patternOutcome (combinedText field) cp.2
          then (some cp.1, patternOutcome (combinedText field) cp.2) else (p, o)).2) := by
      by_cases hlt : o < patternOutcome (combinedText field) cp.2
      · rw [if_pos hlt, if_pos (by
          rw [calculatePatternConfidence_eq]
          exact (scoreOf_lt_iff ho (patternOutcome_le _ _)).mpr hlt)]
        rw [calculatePatternConfidence_eq]
      · rw [if_neg hlt, if_neg (by
          rw [calculatePatternConfidence_eq]
          exact fun hq => hlt ((scoreOf_lt_iff ho (patternOutcome_le _ _)).mp hq))]
    have hb2 : (if o < patternOutcome (combinedText field) cp.2
        then (some cp.1, patternOutcome (combinedText field) cp.2) else (p, o)).2 ≤ 3 := by
      split_ifs
      · exact patternOutcome_le _ _
      · exact ho
    show List.foldl _ (if scoreOf o < calculatePatternConfidence (combinedText field) cp.2
        then (some cp.1, calculatePatternConfidence (combinedText field) cp.2)
        else (p, scoreOf o)) rest = _
    rw [hstep]
    exact ih _ _ hb2

theorem classifySingleFieldB_le (field : FormField) :
    (classifySingleFieldB field).2 ≤ 3 := by
  unfold classifySingleFieldB
  suffices hgen : ∀ (l : List (String × List Rx)) (p : Option String) (o : Nat), o ≤ 3 →
      (l.foldl (fun best cp =>
        let o := patternOutcome (combinedText field) cp.2
        if best.2 < o then (some cp.1, o) else best) (p, o)).2 ≤ 3 by
    exact hgen classificationPatterns none 0 (by omega)
  intro l
  induction l with
  | nil => intro p o ho; simpa using ho
  | cons cp rest ih =>
    intro p o ho
    simp only [List.foldl_cons]
    by_cases hlt : o < patternOutcome (combinedText field) cp.2
    · rw [if_pos hlt]
      exact ih _ _ (patternOutcome_le _ _)
    · rw [if_neg hlt]
      exact ih _ _ ho

/-- The `ℚ`-level mapping determined by a mirror mapping. -/
def formMappingOf (m : FormMappingB) : FormMapping :=
  ⟨m.fieldName, m.cvPath, m.transformFunction, scoreOf m.outcome⟩

theorem half_lt_scoreOf {o : Nat} (ho : o ≤ 3) : 0.5 < scoreOf o ↔ 1 ≤ o := by
  interval_cases o <;> norm_num [scoreOf]

set_option maxRecDepth 4096 in
theorem classifyFields_eq (fieldData : List FieldAttrs) :
    classifyFields fieldData = (classifyFieldsB fieldData).map formMappingOf := by
  unfold classifyFields classifyFieldsB
  suffices hgen : ∀ (l : List FieldAttrs) (acc : List FormMappingB),
      l.foldl (fun mappings fd =>
        let fieldObj := mkFormField fd
        let r := classifySingleField fieldObj
        match r.1 with
        | some classification =>
          if classification ≠ "" ∧ 0.5 < r.2 then
            mappings ++ [(⟨fieldObj.name, classification, commonTransforms classification,
              r.2⟩ : FormMapping)]
          else mappings
        | none => mappings) (acc.map formMappingOf) =
      (l.foldl (fun mappings fd =>
        let fieldObj := mkFormField fd
        let r := classifySingleFieldB fieldObj
        match r.1 with
        | some classification =>
          if classification ≠ "" ∧ 1 ≤ r.2 then
            mappings ++ [(⟨fieldObj.name, classification, commonTransforms classification,
              r.2⟩ : FormMappingB)]
          else mappings
        | none => mappings) acc).map formMappingOf by
    simpa using hgen fieldData []
  intro l
  induction l with
  | nil => intro acc; rfl
  | cons fd rest ih =>
    intro acc
    rw [List.foldl_cons, List.foldl_cons]
    have hb := classifySingleFieldB_le (mkFormField fd)
    have hstep :
        (match (classifySingleField (mkFormField fd)).1 with
          | some classification =>
            if classification ≠ "" ∧ 0.5 < (classifySingleField (mkFormField fd)).2 then
              acc.map formMappingOf ++ [(⟨(mkFormField fd).name, classification,
                commonTransforms classification,
                (classifySingleField (mkFormField fd)).2⟩ : FormMapping)]
            else acc.map formMappingOf
          | none => acc.map formMappingOf) =
        (match (classifySingleFieldB (mkFormField fd)).1 with
          | some classification =>
            if classification ≠ "" ∧ 1 ≤ (classifySingleFieldB (mkFormField fd)).2 then
              acc ++ [(⟨(mkFormField fd).name, classification, commonTransforms classification,
                (classifySingleFieldB (mkFormField fd)).2⟩ : FormMappingB)]
            else acc
          | none => acc).map formMappingOf := by
      rw [classifySingleField_eq (mkFormField fd)]
      cases hc : (classifySingleFieldB (mkFormField fd)).1 with
      | none => rfl
      | some classification =>
        show (if classification ≠ "" ∧ 0.5 < scoreOf (classifySingleFieldB (mkFormField fd)).2
            then acc.map formMappingOf ++ [(⟨(mkFormField fd).name, classification,
              commonTransforms classification,
              scoreOf (classifySingleFieldB (mkFormField fd)).2⟩ : FormMapping)]
            else acc.map formMappingOf) =
          (if classification ≠ "" ∧ 1 ≤ (classifySingleFieldB (mkFormField fd)).2
            then acc ++ [(⟨(mkFormField fd).name, classification,
              commonTransforms classification,
              (classifySingleFieldB (mkFormField fd)).2⟩ : FormMappingB)]
            else acc).map formMappingOf
        by_cases hcond : classification ≠ "" ∧ 1 ≤ (classifySingleFieldB (mkFormField fd)).2
        · rw [if_pos ⟨hcond.1, (half_lt_scoreOf hb).mpr hcond.2⟩, if_pos hcond]
          simp [formMappingOf]
        · rw [if_neg (fun hq => hcond ⟨hq.1, (half_lt_scoreOf hb).mp hq.2⟩), if_neg hcond]
    show List.foldl _
        (match (classifySingleField (mkFormField fd)).1 with
          | some classification =>
            if classification ≠ "" ∧ 0.5 < (classifySingleField (mkFormField fd)).2 then
              acc.map formMappingOf ++ [(⟨(mkFormField fd).name, classification,
                commonTransforms classification,
                (classifySingleField (mkFormField fd)).2⟩ : FormMapping)]
            else acc.map formMappingOf
          | none => acc.map formMappingOf) rest = _
    rw [hstep]
    exact ih _

/-! ## The learning engine (`Learning`) and the persistence write
(`Configuration.learn_field_mapping`)

A learned mapping is the aggregate row returned by `get_learned_mappings`;
`improve_field_classification` consumes such a list.  The sqlite
`field_mappings` table is modelled as the list of its rows, and
`learn_field_mapping` as the append of one validated row.
-/

/-- One aggregate row of `get_learned_mappings`. -/
structure LearnedMapping where
  fieldName : String
  cvPath : String
  confidence : ℚ
  usageCount : Nat
deriving DecidableEq

/-- The combined lower-cased field text
`f"{name} {label} {placeholder}".lower()` of `_calculate_similarity_score`. -/
def simFieldText (fieldInfo : FieldAttrs) : String :=
  strLowerS (strCat (aget fieldInfo "name" "") (strCat " "
    (strCat (aget fieldInfo "label" "") (strCat " " (aget fieldInfo "placeholder" "")))))

/-- The Jaccard computation of `_calculate_similarity_score` after the
empty-set guard: overlap over union, multiplied by 1.5 when the mapping's
field name occurs as a substring of the field text or any of its words does,
capped at 1. -/
def jaccardBoosted (fieldText mappingField : String)
    (fieldWords mappingWords : Finset String) : ℚ :=
  let inter := fieldWords ∩ mappingWords
  let uni := fieldWords ∪ mappingWords
  let jaccardScore : ℚ := if uni ≠ ∅ then (inter.card : ℚ) / (uni.card : ℚ) else 0
  let jaccardScore := if containsSubS fieldText mappingField ||
      (splitWsS mappingField).any (fun w => containsSubS fieldText w) then
      jaccardScore * 1.5
    else jaccardScore
  min jaccardScore 1

/-- `Learning._calculate_similarity_score`. -/
def calculateSimilarityScore (fieldInfo : FieldAttrs) (learnedMapping : LearnedMapping) : ℚ :=
  let fieldText := simFieldText fieldInfo
  let mappingField := strLowerS learnedMapping.fieldName
  let fieldWords := (splitWsS fieldText).toFinset
  let mappingWords := (splitWsS mappingField).toFinset
  if fieldWords = ∅ ∨ mappingWords = ∅ then 0
  else jaccardBoosted fieldText mappingField fieldWords mappingWords

/-- `Learning.improve_field_classification` over the learned mappings of the
domain: first exact (case-insensitive) field-name match boosted by `×1.2`
capped at 1.0, else the best similarity candidate above the 0.3 floor scaled
by its similarity, else `(None, 0.0)`. -/
def improveFieldClassification (learnedMappings : List LearnedMapping)
    (fieldInfo : FieldAttrs) : Option String × ℚ :=
  let fieldName := strLowerS (aget fieldInfo "name" "")
  match learnedMappings.find? (fun m => strLowerS m.fieldName = fieldName) with
  | some m => (some m.cvPath, min (m.confidence * 1.2) 1)
  | none =>
    let best := learnedMappings.foldl (fun (best : Option LearnedMapping × ℚ) m =>
      let score := calculateSimilarityScore fieldInfo m
      if best.2 < score ∧ 0.3 < score then (some m, score) else best) (none, 0)
    match best.1 with
    | some m => (some m.cvPath, m.confidence * best.2)
    | none => (none, 0)

/-- One row of the `field_mappings` table. -/
structure FieldMappingRow where
  domain : String
  fieldName : String
  cvPath : String
  confidence : ℚ
deriving DecidableEq

/-- `Configuration.learn_field_mapping`: reject a blank domain or field name
(`ValueError`, carried as the message string), clamp the confidence into
`[0, 1]`, and append the stripped row to the table. -/
def learnFieldMapping (rows : List FieldMappingRow) (domain fieldName cvPath : String)
    (confidence : ℚ) : Except String (List FieldMappingRow) :=
  if pyStripS domain = "" then .error "Domain must be a non-empty string."
  else if pyStripS fieldName = "" then .error "Field name must be a non-empty string."
  else .ok (rows ++ [⟨pyStripS domain, pyStripS fieldName, pyStripS cvPath,
    max 0 (min 1 confidence)⟩])

/-! ## Specification lemmas for the classifier fold and the report loops -/

/-- The `best`-selection fold of `_classify_single_field`, abstracted over
the per-family score. -/
def bestFold (val : (String × List Rx) → ℚ) (l : List (String × List Rx))
    (init : Option String × ℚ) : Option String × ℚ :=
  l.foldl (fun best cp => if best.2 < val cp then (some cp.1, val cp) else best) init

theorem bestFold_cons (val : (String × List Rx) → ℚ) (cp : String × List Rx)
    (l : List (String × List Rx)) (p : Option String) (o : ℚ) :
    bestFold val (cp :: l) (p, o) =
      bestFold val l (if o < val cp then (some cp.1, val cp) else (p, o)) := rfl

theorem classifySingleField_bestFold (field : FormField) :
    classifySingleField field =
      bestFold (fun cp => calculatePatternConfidence (combinedText field) cp.2)
        classificationPatterns (none, 0) := rfl

theorem bestFold_spec (val : (String × List Rx) → ℚ) :
    ∀ (l : List (String × List Rx)) (p : Option String) (o : ℚ),
    o ≤ (bestFold val l (p, o)).2 ∧
    (∀ cp ∈ l, val cp ≤ (bestFold val l (p, o)).2) ∧
    (bestFold val l (p, o) = (p, o) ∨
      ∃ pre cp post, l = pre ++ cp :: post ∧ bestFold val l (p, o) = (some cp.1, val cp) ∧
        o < val cp ∧ ∀ cp' ∈ pre, val cp' < val cp) := by
  intro l
  induction l with
  | nil =>
    intro p o
    exact ⟨le_refl _, by simp, Or.inl rfl⟩
  | cons cp0 rest ih =>
    intro p o
    by_cases h0 : o < val cp0
    · rw [bestFold_cons, if_pos h0]
      obtain ⟨h1, h2, h3⟩ := ih (some cp0.1) (val cp0)
      refine ⟨le_of_lt (lt_of_lt_of_le h0 h1), ?_, ?_⟩
      · intro cp hcp
        rcases List.mem_cons.mp hcp with hcp | hcp
        · subst hcp; exact h1
        · exact h2 cp hcp
      · rcases h3 with h3 | ⟨pre, cp, post, hsplit, hres, hlt, hpre⟩
        · exact Or.inr ⟨[], cp0, rest, rfl, h3, h0, by simp⟩
        · refine Or.inr ⟨cp0 :: pre, cp, post, by rw [hsplit]; rfl, hres,
            lt_trans h0 hlt, ?_⟩
          intro cp' hcp'
          rcases List.mem_cons.mp hcp' with hcp' | hcp'
          · subst hcp'; exact hlt
          · exact hpre cp' hcp'
    · rw [bestFold_cons, if_neg h0]
      obtain ⟨h1, h2, h3⟩ := ih p o
      refine ⟨h1, ?_, ?_⟩
      · intro cp hcp
        rcases List.mem_cons.mp hcp with hcp | hcp
        · subst hcp; exact le_trans (le_of_not_lt h0) h1
        · exact h2 cp hcp
      · rcases h3 with h3 | ⟨pre, cp, post, hsplit, hres, hlt, hpre⟩
        · exact Or.inl h3
        · refine Or.inr ⟨cp0 :: pre, cp, post, by rw [hsplit]; rfl, hres, hlt, ?_⟩
          intro cp' hcp'
          rcases List.mem_cons.mp hcp' with hcp' | hcp'
          · subst hcp'; exact lt_of_le_of_lt (le_of_not_lt h0) hlt
          · exact hpre cp' hcp'

theorem calc_conf_cases (text : String) (patterns : List Rx) :
    calculatePatternConfidence text patterns = 0 ∨
      (0.8 ≤ calculatePatternConfidence text patterns ∧
       calculatePatternConfidence text patterns ≤ 1) := by
  rw [calculatePatternConfidence_eq]
  have hle := patternOutcome_le text patterns
  match ho : patternOutcome text patterns, hle with
  | 0, _ => left; rfl
  | 1, _ => right; constructor <;> norm_num [scoreOf]
  | 2, _ => right; constructor <;> norm_num [scoreOf]
  | 3, _ => right; constructor <;> norm_num [scoreOf]

theorem calc_conf_nonneg (text : String) (patterns : List Rx) :
    0 ≤ calculatePatternConfidence text patterns := by
  rcases calc_conf_cases text patterns with h | ⟨h, _⟩
  · rw [h]
  · linarith

/-- Every key of the pattern table is a non-empty string. -/
theorem classificationPatterns_keys_nonempty :
    ∀ k ∈ classificationPatterns.map Prod.fst, k ≠ "" := by decide

/-- A non-null classification comes with a key from the table, a score of a
matching family, and confidence at least 0.8 (so above the 0.5 threshold). -/
theorem classified_implies (field : FormField) (c : String)
    (hc : (classifySingleField field).1 = some c) :
    c ∈ classificationPatterns.map Prod.fst ∧ c ≠ "" ∧
      0.8 ≤ (classifySingleField field).2 ∧ 0.5 < (classifySingleField field).2 := by
  have hspec := bestFold_spec
    (fun cp => calculatePatternConfidence (combinedText field) cp.2)
    classificationPatterns none 0
  rw [← classifySingleField_bestFold] at hspec
  obtain ⟨_, _, h3⟩ := hspec
  rcases h3 with h3 | ⟨pre, cp, post, hsplit, hres, hlt, _⟩
  · rw [h3] at hc; simp at hc
  · have hc1 : c = cp.1 := by
      rw [hres] at hc; simp at hc; exact hc.symm
    have hmem : cp ∈ classificationPatterns := by rw [hsplit]; simp
    have hconf : (classifySingleField field).2 =
        calculatePatternConfidence (combinedText field) cp.2 := by rw [hres]
    have h08 : 0.8 ≤ (classifySingleField field).2 := by
      rcases calc_conf_cases (combinedText field) cp.2 with h | ⟨h, _⟩
      · rw [h] at hlt; exact absurd hlt (lt_irrefl 0)
      · rw [hconf]; exact h
    refine ⟨?_, ?_, h08, by linarith⟩
    · rw [hc1]; exact List.mem_map_of_mem Prod.fst hmem
    · rw [hc1]
      exact classificationPatterns_keys_nonempty cp.1 (List.mem_map_of_mem Prod.fst hmem)

/-- The mappings that one field contributes in `classify_fields`. -/
def emitMapping (fd : FieldAttrs) : List FormMapping :=
  match (classifySingleField (mkFormField fd)).1 with
  | some c =>
    if c ≠ "" ∧ 0.5 < (classifySingleField (mkFormField fd)).2 then
      [⟨(mkFormField fd).name, c, commonTransforms c, (classifySingleField (mkFormField fd)).2⟩]
    else []
  | none => []

set_option maxRecDepth 4096 in
theorem classifyFields_flatMap (fieldData : List FieldAttrs) :
    classifyFields fieldData = fieldData.flatMap emitMapping := by
  unfold classifyFields
  suffices hgen : ∀ (l : List FieldAttrs) (acc : List FormMapping),
      l.foldl (fun mappings fd =>
        let fieldObj := mkFormField fd
        let r := classifySingleField fieldObj
        match r.1 with
        | some classification =>
          if classification ≠ "" ∧ 0.5 < r.2 then
            mappings ++ [⟨fieldObj.name, classification, commonTransforms classification, r.2⟩]
          else mappings
        | none => mappings) acc = acc ++ l.flatMap emitMapping by
    simpa using hgen fieldData []
  intro l
  induction l with
  | nil => intro acc; simp
  | cons fd rest ih =>
    intro acc
    rw [List.foldl_cons]
    have hstep :
        (match (classifySingleField (mkFormField fd)).1 with
          | some classification =>
            if classification ≠ "" ∧ 0.5 < (classifySingleField (mkFormField fd)).2 then
              acc ++ [(⟨(mkFormField fd).name, classification,
                commonTransforms classification,
                (classifySingleField (mkFormField fd)).2⟩ : FormMapping)]
            else acc
          | none => acc) = acc ++ emitMapping fd := by
      unfold emitMapping
      cases hc : (classifySingleField (mkFormField fd)).1 with
      | none => simp
      | some classification =>
        show (if classification ≠ "" ∧ 0.5 < (classifySingleField (mkFormField fd)).2 then
            acc ++ [(⟨(mkFormField fd).name, classification,
              commonTransforms classification,
              (classifySingleField (mkFormField fd)).2⟩ : FormMapping)]
          else acc) = acc ++
          (if classification ≠ "" ∧ 0.5 < (classifySingleField (mkFormField fd)).2 then
            [(⟨(mkFormField fd).name, classification,
              commonTransforms classification,
              (classifySingleField (mkFormField fd)).2⟩ : FormMapping)]
          else [])
        by_cases hcond : classification ≠ "" ∧ 0.5 < (classifySingleField (mkFormField fd)).2
        · rw [if_pos hcond, if_pos hcond]
        · rw [if_neg hcond, if_neg hcond]; simp
    show List.foldl _
        (match (classifySingleField (mkFormField fd)).1 with
          | some classification =>
            if classification ≠ "" ∧ 0.5 < (classifySingleField (mkFormField fd)).2 then
              acc ++ [(⟨(mkFormField fd).name, classification,
                commonTransforms classification,
                (classifySingleField (mkFormField fd)).2⟩ : FormMapping)]
            else acc
          | none => acc) rest = _
    rw [hstep, ih, List.flatMap_cons, List.append_assoc]

theorem mem_classifyFields (fieldData : List FieldAttrs) (m : FormMapping) :
    m ∈ classifyFields fieldData ↔ ∃ fd ∈ fieldData, m ∈ emitMapping fd := by
  rw [classifyFields_flatMap, List.mem_flatMap]

theorem emitMapping_cases (fd : FieldAttrs) (m : FormMapping) (hm : m ∈ emitMapping fd) :
    m.fieldName = (mkFormField fd).name ∧
    (classifySingleField (mkFormField fd)).1 = some m.cvPath ∧ m.cvPath ≠ "" ∧
    m.confidence = (classifySingleField (mkFormField fd)).2 ∧ 0.5 < m.confidence := by
  unfold emitMapping at hm
  cases hc : (classifySingleField (mkFormField fd)).1 with
  | none => rw [hc] at hm; simp at hm
  | some c =>
    rw [hc] at hm
    have hm' : m ∈ (if c ≠ "" ∧ 0.5 < (classifySingleField (mkFormField fd)).2 then
        [(⟨(mkFormField fd).name, c, commonTransforms c,
          (classifySingleField (mkFormField fd)).2⟩ : FormMapping)]
      else []) := hm
    by_cases hcond : c ≠ "" ∧ 0.5 < (classifySingleField (mkFormField fd)).2
    · rw [if_pos hcond] at hm'
      simp at hm'
      subst hm'
      exact ⟨rfl, rfl, hcond.1, rfl, hcond.2⟩
    · rw [if_neg hcond] at hm'; simp at hm'

theorem dictInsertQ_cons (kv : String × ℚ) (rest : List (String × ℚ)) (k : String) (v : ℚ) :
    dictInsertQ (kv :: rest) k v =
      if kv.1 = k then (k, v) :: rest else kv :: dictInsertQ rest k v := rfl

theorem mem_keys_dictInsertQ (d : List (String × ℚ)) (k : String) (v : ℚ) (n : String) :
    n ∈ (dictInsertQ d k v).map Prod.fst ↔ n ∈ d.map Prod.fst ∨ n = k := by
  induction d with
  | nil => simp [dictInsertQ]
  | cons kv rest ih =>
    by_cases hk : kv.1 = k
    · rw [dictInsertQ_cons, if_pos hk]
      simp [hk]
      tauto
    · rw [dictInsertQ_cons, if_neg hk]
      simp [ih]
      tauto

theorem mem_dictInsertQ (d : List (String × ℚ)) (k : String) (v : ℚ) :
    ∀ kv ∈ dictInsertQ d k v, kv ∈ d ∨ kv = (k, v) := by
  induction d with
  | nil => simp [dictInsertQ]
  | cons kv0 rest ih =>
    by_cases hk : kv0.1 = k
    · rw [dictInsertQ_cons, if_pos hk]
      intro kv hkv
      rcases List.mem_cons.mp hkv with h | h
      · right; exact h
      · left; exact List.mem_cons_of_mem _ h
    · rw [dictInsertQ_cons, if_neg hk]
      intro kv hkv
      rcases List.mem_cons.mp hkv with h | h
      · left; subst h; exact List.mem_cons_self _ _
      · rcases ih kv h with h2 | h2
        · left; exact List.mem_cons_of_mem _ h2
        · right; exact h2

theorem genLoop_spec (cvData : PyVal) :
    ∀ (ms : List FormMapping) (st st' : GenState), genLoop cvData st ms = .ok st' →
    st'.mappedFieldNames = st.mappedFieldNames ++ ms.map FormMapping.fieldName ∧
    (∀ n, n ∈ st'.confidenceScores.map Prod.fst ↔
      (n ∈ st.confidenceScores.map Prod.fst ∨ n ∈ ms.map FormMapping.fieldName)) ∧
    (∀ e ∈ st'.mappings, e ∈ st.mappings ∨
      ∃ m ∈ ms, e.fieldName = m.fieldName ∧ e.confidence = m.confidence) ∧
    (∀ kv ∈ st'.confidenceScores, kv ∈ st.confidenceScores ∨
      ∃ m ∈ ms, kv.1 = m.fieldName ∧ kv.2 = m.confidence) := by
  intro ms
  induction ms with
  | nil =>
    intro st st' h
    unfold genLoop at h
    injection h with h
    subst h
    exact ⟨by simp, fun n => by simp, fun e he => Or.inl he, fun kv hkv => Or.inl hkv⟩
  | cons m rest ih =>
    intro st st' h
    unfold genLoop at h
    cases hx : extractCvValue cvData m.cvPath m.transformFunction with
    | error e => rw [hx] at h; exact absurd h (by simp)
    | ok fieldValue =>
      rw [hx] at h
      set newMappings := if pyTruthyOptStr fieldValue then
          st.mappings ++ [⟨m.fieldName, m.cvPath, fieldValue.getD "", m.confidence⟩]
        else st.mappings with hnm
      obtain ⟨ih1, ih2, ih3, ih4⟩ := ih
        ⟨newMappings, dictInsertQ st.confidenceScores m.fieldName m.confidence,
          st.mappedFieldNames ++ [m.fieldName]⟩ st' h
      refine ⟨by simpa using ih1, ?_, ?_, ?_⟩
      · intro n
        rw [ih2 n]
        simp only [mem_keys_dictInsertQ, List.map_cons, List.mem_cons]
        tauto
      · intro e he
        rcases ih3 e he with h2 | ⟨m', hm', h3, h4⟩
        · have : e ∈ st.mappings ∨ e = ⟨m.fieldName, m.cvPath, fieldValue.getD "", m.confidence⟩ := by
            by_cases ht : pyTruthyOptStr fieldValue
            · rw [hnm, if_pos ht] at h2
              rcases List.mem_append.mp h2 with h5 | h5
              · exact Or.inl h5
              · right; simpa using h5
            · rw [hnm, if_neg ht] at h2; exact Or.inl h2
          rcases this with h5 | h5
          · exact Or.inl h5
          · exact Or.inr ⟨m, List.mem_cons_self _ _, by rw [h5], by rw [h5]⟩
        · exact Or.inr ⟨m', List.mem_cons_of_mem _ hm', h3, h4⟩
      · intro kv hkv
        rcases ih4 kv hkv with h2 | ⟨m', hm', h3, h4⟩
        · rcases mem_dictInsertQ _ _ _ kv h2 with h5 | h5
          · exact Or.inl h5
          · exact Or.inr ⟨m, List.mem_cons_self _ _, by rw [h5], by rw [h5]⟩
        · exact Or.inr ⟨m', List.mem_cons_of_mem _ hm', h3, h4⟩

theorem unmappedLoop_mem (mappedFieldNames : List String) :
    ∀ (fds : List FieldAttrs) (u : UnmappedEntry), u ∈ unmappedLoop mappedFieldNames fds →
      u.name ∉ mappedFieldNames ∧ u.name ≠ "" ∧
      ∃ fd ∈ fds, u.name = aget fd "name" "" := by
  intro fds
  induction fds with
  | nil => intro u hu; simp [unmappedLoop] at hu
  | cons fd rest ih =>
    intro u hu
    unfold unmappedLoop at hu
    by_cases hc : aget fd "name" "" ≠ "" ∧ aget fd "name" "" ∉ mappedFieldNames
    · rw [if_pos hc] at hu
      rcases List.mem_cons.mp hu with h | h
      · subst h
        exact ⟨hc.2, hc.1, fd, List.mem_cons_self _ _, rfl⟩
      · obtain ⟨h1, h2, fd', h3, h4⟩ := ih u h
        exact ⟨h1, h2, fd', List.mem_cons_of_mem _ h3, h4⟩
    · rw [if_neg hc] at hu
      obtain ⟨h1, h2, fd', h3, h4⟩ := ih u hu
      exact ⟨h1, h2, fd', List.mem_cons_of_mem _ h3, h4⟩

theorem unmappedLoop_covers (mappedFieldNames : List String) :
    ∀ (fds : List FieldAttrs) (fd : FieldAttrs), fd ∈ fds → aget fd "name" "" ≠ "" →
      aget fd "name" "" ∉ mappedFieldNames →
      aget fd "name" "" ∈ (unmappedLoop mappedFieldNames fds).map UnmappedEntry.name := by
  intro fds
  induction fds with
  | nil => intro fd h; simp at h
  | cons fd0 rest ih =>
    intro fd hfd hne hnm
    unfold unmappedLoop
    rcases List.mem_cons.mp hfd with h | h
    · subst h
      rw [if_pos ⟨hne, hnm⟩]
      simp
    · by_cases hc : aget fd0 "name" "" ≠ "" ∧ aget fd0 "name" "" ∉ mappedFieldNames
      · rw [if_pos hc]
        simp only [List.map_cons, List.mem_cons]
        exact Or.inr (ih fd h hne hnm)
      · rw [if_neg hc]
        exact ih fd h hne hnm

/-! ## Concrete records and evaluated runs used by several claims -/

/-- The record of the specification's skills scenario: top-level key `skills`. -/
def skillsRec : PyVal := .dict [("skills", .list [
  .dict [("items", .list [.str "Python", .str "Go"])],
  .dict [("items", .list [.str "SQL"])]])]

/-- The same record with the top-level key named like the virtual key
`skills_text`. -/
def skillsTextRec : PyVal := .dict [("skills_text", .list [
  .dict [("items", .list [.str "Python", .str "Go"])],
  .dict [("items", .list [.str "SQL"])]])]

theorem emailReport_eval :
    generateFieldMapping (.dict []) [[("name", "email")]] =
      .ok ⟨[], [], [("email", scoreOf 3)]⟩ := by
  have hB : classifyFieldsB [[("name", "email")]] =
      [⟨"email", "personal_info.email", none, 3⟩] := by decide
  have hcf : classifyFields [[("name", "email")]] =
      [⟨"email", "personal_info.email", none, scoreOf 3⟩] := by
    rw [classifyFields_eq, hB]; rfl
  unfold generateFieldMapping
  rw [hcf]
  rfl

theorem favoriteReport_eval :
    generateFieldMapping (.dict []) [[("name", "favorite_color")]] =
      .ok ⟨[], [⟨"favorite_color", "text", "", ""⟩], []⟩ := by
  have hB : classifyFieldsB [[("name", "favorite_color")]] = [] := by decide
  have hcf : classifyFields [[("name", "favorite_color")]] = [] := by
    rw [classifyFields_eq, hB]; rfl
  unfold generateFieldMapping
  rw [hcf]
  rfl

/-- Claim C2, counterexample: against the record `{skills: [...]}` of the
specification's scenario, extraction through the virtual key `skills_text`
returns `None`, not `"Python, Go, SQL"` — the path is walked literally and
the key `skills_text` is absent. -/
theorem c2_counterexample :
    extractCvValue skillsRec "skills_text" (some "join_skills") = .ok none ∧
    (Except.ok none : Except PyErr (Option String)) ≠ .ok (some "Python, Go, SQL") := by
  constructor
  · decide
  · decide

/-- Claim C2 (amended): the virtual key `skills_text` is resolved by the
ordinary path mechanism — a single `dict.get("skills_text")` — and the
result is piped through `join_skills` when composite; with the top-level
record field literally named `skills_text`, the scenario's record yields
`"Python, Go, SQL"`, while the key `skills` yields `None`. -/
theorem c2_virtual_key (kvs : List (String × PyVal)) (v : PyVal)
    (hv : dictGet kvs "skills_text" = v) :
    (extractCvValue (.dict kvs) "skills_text" (some "join_skills") =
      (if isPNone v then .ok none
       else if isComposite v then .ok (some (applyTransform v "join_skills" (.dict kvs)))
       else .ok (if pyTruthy v then some (pyStr v) else none))) ∧
    extractCvValue skillsTextRec "skills_text" (some "join_skills") =
      .ok (some "Python, Go, SQL") ∧
    extractCvValue skillsRec "skills_text" (some "join_skills") = .ok none := by
  refine ⟨?_, by decide, by decide⟩
  subst hv
  show (match (match (if isPNone (dictGet kvs "skills_text") then
          (Except.ok none : Except PyErr (Option PyVal))
        else .ok (some (dictGet kvs "skills_text"))) with
      | .error e => (Except.error e : Except PyErr (Option String))
      | .ok none => .ok none
      | .ok (some current) =>
        if pyTruthyOptStr (some "join_skills") ∧ isComposite current then
          .ok (some (applyTransform current ((some "join_skills").getD "") (.dict kvs)))
        else .ok (if pyTruthy current then some (pyStr current) else none)) with
    | .error .attributeError => (Except.error PyErr.attributeError : Except PyErr (Option String))
    | .error _ => .ok none
    | .ok v => .ok v) =
    (if isPNone (dictGet kvs "skills_text") then
      (Except.ok none : Except PyErr (Option String))
     else if isComposite (dictGet kvs "skills_text") then
       .ok (some (applyTransform (dictGet kvs "skills_text") "join_skills" (.dict kvs)))
     else .ok (if pyTruthy (dictGet kvs "skills_text") then
       some (pyStr (dictGet kvs "skills_text")) else none))
  cases hd : dictGet kvs "skills_text" <;> rfl

/-- Claim C3, counterexample: a non-digit segment applied to a list raises
`AttributeError` (`.get` on a list), which `_extract_cv_value` does not
catch — extraction is not exception-free. -/
theorem c3_counterexample :
    extractCvValue (.dict [("a", .list [.int 1])]) "a.b" none = .error .attributeError ∧
    (Except.error PyErr.attributeError : Except PyErr (Option String)) ≠ .ok none := by
  constructor
  · decide
  · decide

/-- Claim C3 (amended): extraction never raises `KeyError`, `IndexError` or
`TypeError` — a missing key, an out-of-range index, a digit segment into a
dict, or a digit segment into a non-subscriptable scalar all yield `None` —
but a non-digit segment applied to a list or scalar raises an uncaught
`AttributeError`, so the only escaping error is `AttributeError`. -/
theorem c3_extraction_errors (cvData : PyVal) (cvPath : String) (tf : Option String) :
    (∀ e, extractCvValue cvData cvPath tf = .error e → e = .attributeError) ∧
    extractCvValue (.dict []) "personal_info.email" none = .ok none ∧
    extractCvValue (.dict [("a", .list [.int 1])]) "a[5]" none = .ok none ∧
    extractCvValue (.dict [("a", .dict [("0", .int 7)])]) "a[0]" none = .ok none ∧
    extractCvValue (.dict [("a", .int 5)]) "a.0" none = .ok none := by
  refine ⟨?_, by decide, by decide, by decide, by decide⟩
  intro e h
  have hgen : ∀ (x : Except PyErr (Option String)) (e : PyErr),
      (match x with
       | .error .attributeError => (Except.error PyErr.attributeError : Except PyErr (Option String))
       | .error _ => .ok none
       | .ok v => .ok v) = .error e → e = .attributeError := by
    intro x e hx
    match x with
    | .error .attributeError =>
      simpa using hx.symm
    | .error .keyError => simp at hx
    | .error .indexError => simp at hx
    | .error .typeError => simp at hx
    | .ok v => simp at hx
  exact hgen _ e h

/-- The structure of a successfully returned report, in terms of
`classifyFields`. -/
theorem report_spec (cvData : PyVal) (formFields : List FieldAttrs) (r : MappingReport)
    (h : generateFieldMapping cvData formFields = .ok r) :
    (∀ n, n ∈ r.confidenceScores.map Prod.fst ↔
      n ∈ (classifyFields formFields).map FormMapping.fieldName) ∧
    (∀ e ∈ r.mappings, ∃ m ∈ classifyFields formFields,
      e.fieldName = m.fieldName ∧ e.confidence = m.confidence) ∧
    (∀ kv ∈ r.confidenceScores, ∃ m ∈ classifyFields formFields,
      kv.1 = m.fieldName ∧ kv.2 = m.confidence) ∧
    (∀ u ∈ r.unmappedFields,
      u.name ∉ (classifyFields formFields).map FormMapping.fieldName ∧ u.name ≠ "") ∧
    (∀ fd ∈ formFields, aget fd "name" "" ≠ "" →
      aget fd "name" "" ∉ (classifyFields formFields).map FormMapping.fieldName →
      aget fd "name" "" ∈ r.unmappedFields.map UnmappedEntry.name) := by
  unfold generateFieldMapping at h
  have h' : (match genLoop cvData ⟨[], [], []⟩ (classifyFields formFields) with
      | Except.error e => (Except.error e : Except PyErr MappingReport)
      | Except.ok st => Except.ok ⟨st.mappings, unmappedLoop st.mappedFieldNames formFields,
          st.confidenceScores⟩) = Except.ok r := h
  clear h
  cases hgl : genLoop cvData ⟨[], [], []⟩ (classifyFields formFields) with
  | error e =>
    rw [hgl] at h'
    exact absurd h' (by simp)
  | ok st =>
    rw [hgl] at h'
    injection h' with h'
    subst h'
    obtain ⟨h1, h2, h3, h4⟩ := genLoop_spec cvData (classifyFields formFields) _ st hgl
    have hmn : st.mappedFieldNames = (classifyFields formFields).map FormMapping.fieldName := by
      simpa using h1
    refine ⟨?_, ?_, ?_, ?_, ?_⟩
    · intro n
      rw [h2 n]
      simp
    · intro e he
      rcases h3 e he with h5 | ⟨m, hm, h6, h7⟩
      · simp at h5
      · exact ⟨m, hm, h6, h7⟩
    · intro kv hkv
      rcases h4 kv hkv with h5 | ⟨m, hm, h6, h7⟩
      · simp at h5
      · exact ⟨m, hm, h6, h7⟩
    · intro u hu
      obtain ⟨hu1, hu2, _⟩ := unmappedLoop_mem st.mappedFieldNames formFields u hu
      rw [hmn] at hu1
      exact ⟨hu1, hu2⟩
    · intro fd hfd hne hnm
      rw [← hmn] at hnm
      exact unmappedLoop_covers st.mappedFieldNames formFields fd hfd hne hnm

/-- Claim C1 (amended): in every successfully returned report, `mappings` and
`unmapped_fields` are disjoint by field name, every mapping entry's name is a
key of `confidence_scores`, no unmapped field's name is such a key, and every
input field with a non-empty name appears by name in `confidence_scores` or
in `unmapped_fields`.  (A field classified above 0.5 whose extraction yields
no value appears only in `confidence_scores`: it is in neither list — see the
counterexample.) -/
theorem c1_report_partition (cvData : PyVal) (formFields : List FieldAttrs)
    (r : MappingReport) (h : generateFieldMapping cvData formFields = .ok r) :
    (∀ e ∈ r.mappings, ∀ u ∈ r.unmappedFields, e.fieldName ≠ u.name) ∧
    (∀ e ∈ r.mappings, e.fieldName ∈ r.confidenceScores.map Prod.fst) ∧
    (∀ u ∈ r.unmappedFields, u.name ∉ r.confidenceScores.map Prod.fst) ∧
    (∀ fd ∈ formFields, aget fd "name" "" ≠ "" →
      aget fd "name" "" ∈ r.confidenceScores.map Prod.fst ∨
      aget fd "name" "" ∈ r.unmappedFields.map UnmappedEntry.name) := by
  obtain ⟨hkeys, hmap, _, hunm, hcov⟩ := report_spec cvData formFields r h
  have hmapkeys : ∀ e ∈ r.mappings, e.fieldName ∈ r.confidenceScores.map Prod.fst := by
    intro e he
    obtain ⟨m, hm, h6, _⟩ := hmap e he
    rw [hkeys]
    rw [h6]
    exact List.mem_map_of_mem FormMapping.fieldName hm
  refine ⟨?_, hmapkeys, ?_, ?_⟩
  · intro e he u hu hne
    obtain ⟨hu1, _⟩ := hunm u hu
    have := hmapkeys e he
    rw [hkeys] at this
    rw [hne] at this
    exact hu1 this
  · intro u hu
    obtain ⟨hu1, _⟩ := hunm u hu
    rw [hkeys]
    exact hu1
  · intro fd hfd hne
    by_cases hm : aget fd "name" "" ∈ (classifyFields formFields).map FormMapping.fieldName
    · left; rw [hkeys]; exact hm
    · right; exact hcov fd hfd hne hm

/-- Claim C1, counterexample: the field `{name: "email"}` against the empty
record is classified with confidence 1.0 but its extraction yields no value,
so it appears in neither `mappings` nor `unmapped_fields` — only in
`confidence_scores`. -/
theorem c1_counterexample :
    (generateFieldMapping (.dict []) [[("name", "email")]]).map
      (fun r => (r.mappings, r.unmappedFields, r.confidenceScores.map Prod.fst)) =
      .ok ([], [], ["email"]) := by
  rw [emailReport_eval]
  rfl

/-- Claim C1, witness: the report for the lone unmatched field
`favorite_color` accounts for it in `unmapped_fields`. -/
theorem c1_report_partition_witness :
    "favorite_color" ∈ ([] : List (String × ℚ)).map Prod.fst ∨
    "favorite_color" ∈
      ([⟨"favorite_color", "text", "", ""⟩] : List UnmappedEntry).map UnmappedEntry.name :=
  (c1_report_partition (.dict []) [[("name", "favorite_color")]]
    ⟨[], [⟨"favorite_color", "text", "", ""⟩], []⟩ favoriteReport_eval).2.2.2
    [("name", "favorite_color")] (by simp) (by decide)

theorem mem_names_classifyFields (fds : List FieldAttrs) (n : String) :
    n ∈ (classifyFields fds).map FormMapping.fieldName ↔
    ∃ fd ∈ fds, n = aget fd "name" "" ∧ (classifySingleField (mkFormField fd)).1 ≠ none := by
  rw [List.mem_map]
  constructor
  · rintro ⟨m, hm, hmn⟩
    obtain ⟨fd, hfd, hmem⟩ := (mem_classifyFields fds m).mp hm
    obtain ⟨h1, h2, _, _, _⟩ := emitMapping_cases fd m hmem
    refine ⟨fd, hfd, by rw [← hmn, h1]; rfl, by rw [h2]; simp⟩
  · rintro ⟨fd, hfd, hn, hcls⟩
    cases hc : (classifySingleField (mkFormField fd)).1 with
    | none => exact absurd hc hcls
    | some c =>
      obtain ⟨_, hcne, _, hhalf⟩ := classified_implies (mkFormField fd) c hc
      refine ⟨⟨(mkFormField fd).name, c, commonTransforms c,
        (classifySingleField (mkFormField fd)).2⟩, ?_, by simpa using hn.symm⟩
      apply (mem_classifyFields fds _).mpr
      refine ⟨fd, hfd, ?_⟩
      unfold emitMapping
      rw [hc]
      show _ ∈ (if c ≠ "" ∧ 0.5 < (classifySingleField (mkFormField fd)).2 then
          [(⟨(mkFormField fd).name, c, commonTransforms c,
            (classifySingleField (mkFormField fd)).2⟩ : FormMapping)]
        else [])
      rw [if_pos ⟨hcne, hhalf⟩]
      simp

theorem classify_conf_cases (field : FormField) :
    (classifySingleField field).2 = 0 ∨
      (0.8 ≤ (classifySingleField field).2 ∧ (classifySingleField field).2 ≤ 1) := by
  have hle := classifySingleFieldB_le field
  have hq : (classifySingleField field).2 = scoreOf (classifySingleFieldB field).2 := by
    rw [classifySingleField_eq]
  rw [hq]
  generalize ho : (classifySingleFieldB field).2 = o at hle
  interval_cases o
  · left; rfl
  · right; constructor <;> norm_num [scoreOf]
  · right; constructor <;> norm_num [scoreOf]
  · right; constructor <;> norm_num [scoreOf]

/-- Claim C5: `confidence_scores` has an entry exactly for the names of
fields whose classification produced a non-null path (even when the
extracted value was empty), and a field whose name never matches any
pattern family lands in `unmapped_fields` and is absent from
`confidence_scores`. -/
theorem c5_confidence_scores (cvData : PyVal) (formFields : List FieldAttrs)
    (r : MappingReport) (h : generateFieldMapping cvData formFields = .ok r) :
    (∀ n, n ∈ r.confidenceScores.map Prod.fst ↔
      ∃ fd ∈ formFields, n = aget fd "name" "" ∧
        (classifySingleField (mkFormField fd)).1 ≠ none) ∧
    (∀ fd ∈ formFields, aget fd "name" "" ≠ "" →
      (∀ fd' ∈ formFields, aget fd' "name" "" = aget fd "name" "" →
        (classifySingleField (mkFormField fd')).1 = none) →
      aget fd "name" "" ∉ r.confidenceScores.map Prod.fst ∧
      aget fd "name" "" ∈ r.unmappedFields.map UnmappedEntry.name) := by
  obtain ⟨hkeys, _, _, _, hcov⟩ := report_spec cvData formFields r h
  constructor
  · intro n
    rw [hkeys]
    exact mem_names_classifyFields formFields n
  · intro fd hfd hne hall
    have hnm : aget fd "name" "" ∉ (classifyFields formFields).map FormMapping.fieldName := by
      rw [mem_names_classifyFields]
      rintro ⟨fd', hfd', heq, hcls⟩
      exact hcls (hall fd' hfd' heq.symm)
    exact ⟨by rw [hkeys]; exact hnm, hcov fd hfd hne hnm⟩

/-- Claim C5, witness: the scenario field `favorite_color` matches no family,
is absent from `confidence_scores` and appears in `unmapped_fields`. -/
theorem c5_confidence_scores_witness :
    "favorite_color" ∉ ([] : List (String × ℚ)).map Prod.fst ∧
    "favorite_color" ∈
      ([⟨"favorite_color", "text", "", ""⟩] : List UnmappedEntry).map UnmappedEntry.name := by
  have hnone : ∀ fd' ∈ [[("name", "favorite_color")]],
      aget fd' "name" "" = aget [("name", "favorite_color")] "name" "" →
      (classifySingleField (mkFormField fd')).1 = none := by
    intro fd' hfd' _
    simp at hfd'
    subst hfd'
    have hq := classifySingleField_eq (mkFormField [("name", "favorite_color")])
    have hB : classifySingleFieldB (mkFormField [("name", "favorite_color")]) = (none, 0) := by
      decide
    rw [hq, hB]
  exact (c5_confidence_scores (.dict []) [[("name", "favorite_color")]]
    ⟨[], [⟨"favorite_color", "text", "", ""⟩], []⟩ favoriteReport_eval).2
    [("name", "favorite_color")] (by simp) (by decide) hnone

/-- Claim C10: every emitted `FormMapping` — and hence every mapping entry
and every confidence score of the report — has confidence in `[0.8, 1]`, and
a single field's best confidence is either 0 or at least 0.8: values
strictly between 0 and 0.8 are unreachable. -/
theorem c10_confidence_floor (fieldData : List FieldAttrs) (cvData : PyVal)
    (r : MappingReport) (field : FormField) :
    (∀ m ∈ classifyFields fieldData, 0.8 ≤ m.confidence ∧ m.confidence ≤ 1) ∧
    (generateFieldMapping cvData fieldData = .ok r →
      (∀ e ∈ r.mappings, 0.8 ≤ e.confidence ∧ e.confidence ≤ 1) ∧
      (∀ kv ∈ r.confidenceScores, 0.8 ≤ kv.2 ∧ kv.2 ≤ 1)) ∧
    ((classifySingleField field).2 = 0 ∨
      (0.8 ≤ (classifySingleField field).2 ∧ (classifySingleField field).2 ≤ 1)) := by
  have hcf : ∀ m ∈ classifyFields fieldData, 0.8 ≤ m.confidence ∧ m.confidence ≤ 1 := by
    intro m hm
    obtain ⟨fd, _, hmem⟩ := (mem_classifyFields fieldData m).mp hm
    obtain ⟨_, _, _, hconf, hhalf⟩ := emitMapping_cases fd m hmem
    rcases classify_conf_cases (mkFormField fd) with h0 | ⟨h8, h1⟩
    · rw [hconf, h0] at hhalf
      exact absurd hhalf (by norm_num)
    · rw [hconf]
      exact ⟨h8, h1⟩
  refine ⟨hcf, ?_, classify_conf_cases field⟩
  intro h
  obtain ⟨_, hmap, hscores, _, _⟩ := report_spec cvData fieldData r h
  constructor
  · intro e he
    obtain ⟨m, hm, _, hconf⟩ := hmap e he
    rw [hconf]
    exact hcf m hm
  · intro kv hkv
    obtain ⟨m, hm, _, hconf⟩ := hscores kv hkv
    rw [hconf]
    exact hcf m hm

/-- Claim C10, witness: the report for the `email` field records confidence
`scoreOf 3 = 1.0`, which lies in `[0.8, 1]`. -/
theorem c10_confidence_floor_witness : 0.8 ≤ scoreOf 3 ∧ scoreOf 3 ≤ 1 :=
  ((c10_confidence_floor [[("name", "email")]] (.dict [])
    ⟨[], [], [("email", scoreOf 3)]⟩ (mkFormField [])).2.1 emailReport_eval).2
    ("email", scoreOf 3) (by simp)

theorem foldr_max_nonneg (l : List ℚ) : 0 ≤ l.foldr max 0 := by
  induction l with
  | nil => exact le_refl 0
  | cons x rest ih => exact le_trans ih (le_max_right x _)

theorem escalate_nonneg (m text : String) : 0 ≤ escalateConfidence m text := by
  unfold escalateConfidence
  split_ifs <;> norm_num

/-- Claim C4: per-family confidence is 0 for an empty search string or when
no rule matches; otherwise it is the maximum over the rules of the
escalation ladder (0.8 bare match, 1.0 whole trimmed text, 0.9 word
boundary); and `classify` returns `(None, 0.0)` when the combined text is
empty. -/
theorem c4_pattern_confidence (text : String) (patterns : List Rx) (field : FormField) :
    (calculatePatternConfidence text patterns =
      if text = "" then 0
      else ((patterns.map (fun p =>
        match rsearch p text with
        | none => (0 : ℚ)
        | some m => escalateConfidence m text)).foldr max 0)) ∧
    ((∀ p ∈ patterns, rsearch p text = none) → calculatePatternConfidence text patterns = 0) ∧
    (∀ m : String, escalateConfidence m text =
      if strLower m.data = strLower (pyStrip text.data) then 1
      else if (rsearch (boundedLitRx m) text).isSome then 0.9 else 0.8) ∧
    (combinedText field = "" → classifySingleField field = (none, 0)) := by
  have hfold : ∀ (l : List Rx) (acc : ℚ), 0 ≤ acc →
      l.foldl (fun maxConfidence p =>
        match rsearch p text with
        | some m => max maxConfidence (escalateConfidence m text)
        | none => maxConfidence) acc =
      max acc ((l.map (fun p =>
        match rsearch p text with
        | none => (0 : ℚ)
        | some m => escalateConfidence m text)).foldr max 0) := by
    intro l
    induction l with
    | nil =>
      intro acc hacc
      simp only [List.map_nil, List.foldr_nil, List.foldl_nil]
      exact (max_eq_left hacc).symm
    | cons p rest ih =>
      intro acc hacc
      rw [List.foldl_cons, List.map_cons, List.foldr_cons]
      cases hr : rsearch p text with
      | none =>
        show List.foldl _ acc rest = max acc (max 0 _)
        rw [ih acc hacc, max_eq_right (foldr_max_nonneg _)]
      | some m =>
        show List.foldl _ (max acc (escalateConfidence m text)) rest =
          max acc (max (escalateConfidence m text) _)
        rw [ih (max acc (escalateConfidence m text))
          (le_trans hacc (le_max_left acc _)), max_assoc]
  have hconj1 : calculatePatternConfidence text patterns =
      if text = "" then 0
      else ((patterns.map (fun p =>
        match rsearch p text with
        | none => (0 : ℚ)
        | some m => escalateConfidence m text)).foldr max 0) := by
    unfold calculatePatternConfidence
    split_ifs with hte
    · rfl
    · rw [hfold patterns 0 (le_refl 0), max_eq_right (foldr_max_nonneg _)]
  refine ⟨hconj1, ?_, fun m => rfl, ?_⟩
  · intro hall
    rw [hconj1]
    split_ifs with hte
    · rfl
    · suffices hz : ∀ (l : List Rx), (∀ p ∈ l, rsearch p text = none) →
          ((l.map (fun p =>
            match rsearch p text with
            | none => (0 : ℚ)
            | some m => escalateConfidence m text)).foldr max 0) = 0 by
        exact hz patterns hall
      intro l
      induction l with
      | nil => intro _; rfl
      | cons p rest ih =>
        intro hall2
        rw [List.map_cons, List.foldr_cons, hall2 p (List.mem_cons_self _ _),
          ih (fun q hq => hall2 q (List.mem_cons_of_mem _ hq)),
          max_eq_right (le_refl (0 : ℚ))]
  · intro hct
    have hz : ∀ cp ∈ classificationPatterns,
        calculatePatternConfidence (combinedText field) cp.2 = 0 := by
      intro cp _
      rw [hct]
      rfl
    rw [classifySingleField_bestFold]
    obtain ⟨_, _, h3⟩ := bestFold_spec
      (fun cp => calculatePatternConfidence (combinedText field) cp.2)
      classificationPatterns none 0
    rcases h3 with h3 | ⟨pre, cp, post, hsplit, hres, hlt, _⟩
    · exact h3
    · have hzz := hz cp (by rw [hsplit]; simp)
      rw [hzz] at hlt
      exact absurd hlt (lt_irrefl 0)

/-- Claim C4, witness: the email family's rules do not match the text
`"zzz"`, so the family confidence is 0. -/
theorem c4_pattern_confidence_witness :
    calculatePatternConfidence "zzz" [litRx "email".data] = 0 :=
  (c4_pattern_confidence "zzz" [litRx "email".data] (mkFormField [])).2.1 (by decide)

/-- Claim C6: `classify` returns the maximal family confidence; the winning
family is the first one in declaration order attaining it (all earlier
families score strictly less, a consequence of the strict `>` update); when
no family scores above 0 the result is `(None, 0.0)`. -/
theorem c6_tiebreak (field : FormField) :
    (∀ cp ∈ classificationPatterns,
      calculatePatternConfidence (combinedText field) cp.2 ≤ (classifySingleField field).2) ∧
    (∀ c, (classifySingleField field).1 = some c →
      ∃ pre cp post, classificationPatterns = pre ++ cp :: post ∧ cp.1 = c ∧
        (classifySingleField field).2 =
          calculatePatternConfidence (combinedText field) cp.2 ∧
        0 < (classifySingleField field).2 ∧
        ∀ cp' ∈ pre, calculatePatternConfidence (combinedText field) cp'.2 <
          (classifySingleField field).2) ∧
    ((∀ cp ∈ classificationPatterns,
        calculatePatternConfidence (combinedText field) cp.2 = 0) →
      classifySingleField field = (none, 0)) := by
  obtain ⟨h1, h2, h3⟩ := bestFold_spec
    (fun cp => calculatePatternConfidence (combinedText field) cp.2)
    classificationPatterns none 0
  rw [← classifySingleField_bestFold] at h1 h2 h3
  refine ⟨h2, ?_, ?_⟩
  · intro c hc
    rcases h3 with h3 | ⟨pre, cp, post, hsplit, hres, hlt, hpre⟩
    · rw [h3] at hc
      simp at hc
    · have hc1 : cp.1 = c := by
        rw [hres] at hc
        simpa using hc
      refine ⟨pre, cp, post, hsplit, hc1, by rw [hres], ?_, ?_⟩
      · rw [hres]
        exact hlt
      · intro cp' hcp'
        rw [hres]
        exact hpre cp' hcp'
  · intro hz
    rcases h3 with h3 | ⟨pre, cp, post, hsplit, hres, hlt, _⟩
    · exact h3
    · have hzz := hz cp (by rw [hsplit]; simp)
      rw [hzz] at hlt
      exact absurd hlt (lt_irrefl 0)

/-- Claim C6, witness: a field with no textual attributes has an empty
combined text, every family scores 0, and `classify` returns `(None, 0.0)`. -/
theorem c6_tiebreak_witness : classifySingleField (mkFormField []) = (none, 0) := by
  apply (c6_tiebreak (mkFormField [])).2.2
  intro cp _
  rfl

theorem jaccardBoosted_bounds (ft mf : String) (fw mw : Finset String) :
    0 ≤ jaccardBoosted ft mf fw mw ∧ jaccardBoosted ft mf fw mw ≤ 1 := by
  unfold jaccardBoosted
  dsimp only
  split_ifs <;>
    exact ⟨le_min (by positivity) (by norm_num), min_le_right _ _⟩

theorem similarity_bounds (fieldInfo : FieldAttrs) (lm : LearnedMapping) :
    0 ≤ calculateSimilarityScore fieldInfo lm ∧ calculateSimilarityScore fieldInfo lm ≤ 1 := by
  unfold calculateSimilarityScore
  dsimp only
  split_ifs
  · norm_num
  · exact jaccardBoosted_bounds _ _ _ _

/-- The best-similarity fold of `improve_field_classification`. -/
def fuzzyFold (fieldInfo : FieldAttrs) (l : List LearnedMapping)
    (init : Option LearnedMapping × ℚ) : Option LearnedMapping × ℚ :=
  l.foldl (fun best m =>
    let score := calculateSimilarityScore fieldInfo m
    if best.2 < score ∧ 0.3 < score then (some m, score) else best) init

theorem fuzzyFold_cons (fieldInfo : FieldAttrs) (m0 : LearnedMapping)
    (rest : List LearnedMapping) (init : Option LearnedMapping × ℚ) :
    fuzzyFold fieldInfo (m0 :: rest) init =
      fuzzyFold fieldInfo rest
        (if init.2 < calculateSimilarityScore fieldInfo m0 ∧
            0.3 < calculateSimilarityScore fieldInfo m0 then
          (some m0, calculateSimilarityScore fieldInfo m0)
        else init) := rfl

theorem improveFieldClassification_eq (learned : List LearnedMapping) (fi : FieldAttrs) :
    improveFieldClassification learned fi =
      match learned.find? (fun m => strLowerS m.fieldName = strLowerS (aget fi "name" "")) with
      | some m => (some m.cvPath, min (m.confidence * 1.2) 1)
      | none =>
        match (fuzzyFold fi learned (none, 0)).1 with
        | some m => (some m.cvPath, m.confidence * (fuzzyFold fi learned (none, 0)).2)
        | none => (none, 0) := rfl

theorem fuzzyFold_spec (fieldInfo : FieldAttrs) :
    ∀ (l : List LearnedMapping) (init : Option LearnedMapping × ℚ),
      0 ≤ init.2 → init.2 ≤ 1 →
      (0 ≤ (fuzzyFold fieldInfo l init).2 ∧ (fuzzyFold fieldInfo l init).2 ≤ 1) ∧
      (∀ m, (fuzzyFold fieldInfo l init).1 = some m → m ∈ l ∨ init.1 = some m) := by
  intro l
  induction l with
  | nil =>
    intro init h0 h1
    exact ⟨⟨h0, h1⟩, fun m hm => Or.inr hm⟩
  | cons m0 rest ih =>
    intro init h0 h1
    rw [fuzzyFold_cons]
    by_cases hc : init.2 < calculateSimilarityScore fieldInfo m0 ∧
        0.3 < calculateSimilarityScore fieldInfo m0
    · rw [if_pos hc]
      obtain ⟨hs0, hs1⟩ := similarity_bounds fieldInfo m0
      obtain ⟨hb, hmem⟩ := ih (some m0, calculateSimilarityScore fieldInfo m0) hs0 hs1
      refine ⟨hb, ?_⟩
      intro m hm
      rcases hmem m hm with h | h
      · exact Or.inl (List.mem_cons_of_mem _ h)
      · left
        simp at h
        rw [h]
        exact List.mem_cons_self _ _
    · rw [if_neg hc]
      obtain ⟨hb, hmem⟩ := ih init h0 h1
      refine ⟨hb, ?_⟩
      intro m hm
      rcases hmem m hm with h | h
      · exact Or.inl (List.mem_cons_of_mem _ h)
      · exact Or.inr h

/-- Claim C7: when the stored learned confidences lie in `[0, 1]` (they are
clamped at write time), `improve_field_classification` returns a confidence
in `[0, 1]` on every branch. -/
theorem c7_improve_bounds (learned : List LearnedMapping) (fieldInfo : FieldAttrs)
    (hl : ∀ m ∈ learned, 0 ≤ m.confidence ∧ m.confidence ≤ 1) :
    0 ≤ (improveFieldClassification learned fieldInfo).2 ∧
    (improveFieldClassification learned fieldInfo).2 ≤ 1 := by
  rw [improveFieldClassification_eq]
  cases hf : learned.find?
      (fun m => strLowerS m.fieldName = strLowerS (aget fieldInfo "name" "")) with
  | some m =>
    obtain ⟨hm0, hm1⟩ := hl m (List.mem_of_find?_eq_some hf)
    constructor
    · refine le_min ?_ (by norm_num)
      positivity
    · exact min_le_right _ _
  | none =>
    obtain ⟨⟨hb0, hb1⟩, hmem⟩ := fuzzyFold_spec fieldInfo learned (none, 0)
      (le_refl 0) (by norm_num)
    cases hbest : (fuzzyFold fieldInfo learned (none, 0)).1 with
    | none => norm_num
    | some m =>
      have hm : m ∈ learned := by
        rcases hmem m hbest with h | h
        · exact h
        · simp at h
      obtain ⟨hm0, hm1⟩ := hl m hm
      exact ⟨mul_nonneg hm0 hb0, mul_le_one₀ hm1 hb0 hb1⟩

/-- The learned mapping used by the learning-engine witnesses. -/
def lmEmail : LearnedMapping := ⟨"email", "personal_info.email", 0.9, 2⟩

/-- Claim C7, witness: a fuzzy lookup against one learned mapping stays in
`[0, 1]`. -/
theorem c7_improve_bounds_witness :
    0 ≤ (improveFieldClassification [lmEmail] [("name", "first_name")]).2 ∧
    (improveFieldClassification [lmEmail] [("name", "first_name")]).2 ≤ 1 :=
  c7_improve_bounds [lmEmail] [("name", "first_name")] (by
    intro m hm
    simp at hm
    subst hm
    norm_num [lmEmail])

/-- Claim C8: an exact (case-insensitive) learned field-name match returns
the stored path with confidence `min(stored × 1.2, 1.0)`, which is at least
the stored confidence for every stored confidence in `[0, 1]` and never
exceeds 1. -/
theorem c8_exact_boost (learned : List LearnedMapping) (fi : FieldAttrs) (m : LearnedMapping)
    (hf : learned.find? (fun m => strLowerS m.fieldName = strLowerS (aget fi "name" "")) =
      some m)
    (h0 : 0 ≤ m.confidence) (h1 : m.confidence ≤ 1) :
    improveFieldClassification learned fi = (some m.cvPath, min (m.confidence * 1.2) 1) ∧
    m.confidence ≤ (improveFieldClassification learned fi).2 ∧
    (improveFieldClassification learned fi).2 ≤ 1 := by
  have heq : improveFieldClassification learned fi =
      (some m.cvPath, min (m.confidence * 1.2) 1) := by
    rw [improveFieldClassification_eq, hf]
  refine ⟨heq, ?_, ?_⟩
  · rw [heq]
    show m.confidence ≤ min (m.confidence * 1.2) 1
    refine le_min ?_ h1
    have h2 : m.confidence * 1 ≤ m.confidence * 1.2 :=
      mul_le_mul_of_nonneg_left (by norm_num) h0
    simpa using h2
  · rw [heq]
    exact min_le_right _ _

/-- Claim C8, witness: an exact match on `Email` against the stored mapping
for `email` (confidence 0.9) returns a boosted confidence at least 0.9 and
at most 1. -/
theorem c8_exact_boost_witness :
    (0.9 : ℚ) ≤ (improveFieldClassification [lmEmail] [("name", "Email")]).2 ∧
    (improveFieldClassification [lmEmail] [("name", "Email")]).2 ≤ 1 := by
  have hf : [lmEmail].find?
      (fun m => strLowerS m.fieldName = strLowerS (aget [("name", "Email")] "name" "")) =
      some lmEmail := by rfl
  have h := c8_exact_boost [lmEmail] [("name", "Email")] lmEmail hf
    (by norm_num [lmEmail]) (by norm_num [lmEmail])
  exact ⟨h.2.1, h.2.2⟩

/-- Claim C9, counterexample: the stored row is stripped of surrounding
whitespace, so it is not recorded exactly as given: domain `" acme.com "`
and field name `" email "` are stored as `"acme.com"` and `"email"`. -/
theorem c9_counterexample :
    (learnFieldMapping [] " acme.com " " email " "p" 2).map
      (List.map (fun row => (row.domain, row.fieldName))) = .ok [("acme.com", "email")] ∧
    ("acme.com", "email") ≠ (" acme.com ", " email ") := by
  constructor
  · rfl
  · decide

/-- Claim C9 (amended): `learn_field_mapping` fails validation exactly when
the domain or the field name strips to the empty string; every successful
write appends one row whose strings are stripped of surrounding whitespace
and whose confidence is clamped into `[0, 1]`. -/
theorem c9_learn_validation (rows : List FieldMappingRow) (domain fieldName cvPath : String)
    (confidence : ℚ) :
    ((learnFieldMapping rows domain fieldName cvPath confidence).toOption = none ↔
      (pyStripS domain = "" ∨ pyStripS fieldName = "")) ∧
    (∀ rows', learnFieldMapping rows domain fieldName cvPath confidence = .ok rows' →
      rows' = rows ++ [⟨pyStripS domain, pyStripS fieldName, pyStripS cvPath,
        max 0 (min 1 confidence)⟩] ∧
      0 ≤ max 0 (min 1 confidence) ∧ max 0 (min 1 confidence) ≤ 1) := by
  unfold learnFieldMapping
  split_ifs with h1 h2
  · exact ⟨by simp [Except.toOption, h1], fun rows' hx => absurd hx (by simp)⟩
  · exact ⟨by simp [Except.toOption, h2], fun rows' hx => absurd hx (by simp)⟩
  · refine ⟨by simp [Except.toOption, h1, h2], ?_⟩
    intro rows' hx
    injection hx with hx
    subst hx
    exact ⟨rfl, le_max_left 0 _, max_le (by norm_num) (min_le_left 1 confidence)⟩

/-- Claim C9, witness: a successful write with confidence 1.5 stores it
clamped into `[0, 1]`. -/
theorem c9_learn_validation_witness :
    0 ≤ max (0 : ℚ) (min 1 1.5) ∧ max (0 : ℚ) (min 1 1.5) ≤ 1 :=
  (((c9_learn_validation [] "acme.com" "email" "p" 1.5).2 _ rfl).2)

/-- Claim C2, witness: with the top-level record field literally named
`skills_text`, the scenario's record yields `"Python, Go, SQL"`. -/
theorem c2_virtual_key_witness :
    extractCvValue skillsTextRec "skills_text" (some "join_skills") =
      .ok (some "Python, Go, SQL") :=
  (c2_virtual_key [("skills_text", .list [
    .dict [("items", .list [.str "Python", .str "Go"])],
    .dict [("items", .list [.str "SQL"])]])] _ rfl).2.1

/-- Claim C3, witness: the only escaping error is `AttributeError`, observed
on a scalar record. -/
theorem c3_extraction_errors_witness :
    extractCvValue (.int 3) "x" none = .error .attributeError ∧
    PyErr.attributeError = PyErr.attributeError := by
  have h : extractCvValue (.int 3) "x" none = .error .attributeError := by decide
  exact ⟨h, (c3_extraction_errors (.int 3) "x" none).1 .attributeError h⟩
